import Mathlib

/-!
# Verification of the salescrawler core against its specification

Shallow embedding of the salescrawler Rust sources (`src/rule.rs`,
`src/models.rs`, `src/poll.rs`, `src/reddit.rs`) and proofs of the spec
claims about them.

Modelling conventions:
* Rust `String`/`&str` become Lean `String` or `List Char`; Rust's
  byte/char distinction is modelled at the char level (the scanner in
  `rule.rs` walks `chars().nth(cursor)`, so its cursor counts chars).
* Machine integers become `Int`/`Nat` with explicit range checks where the
  code can fail (`str::parse::<i32>`, `str::parse::<i8>`).
* `f64` values that only ever hold exact small decimals (`dollars + 0.1*cents`
  compared against integer bounds, all exactly representable and compared
  without rounding anomalies on this domain) are modelled as `ℚ`.
* Unicode-aware Rust char classes (`is_alphanumeric`, `\w`, `to_lowercase`,
  `trim`) are modelled by Lean's ASCII `Char.isAlphanum`, `Char.isWhitespace`,
  `Char.toLower`; all claims are about this common core of the two classes.
* The mutually recursive recursive-descent parser takes a fuel parameter
  (`Option` result; `none` = fuel exhausted, an artifact of the embedding
  that never occurs for the fuel `parse_pattern` supplies).
-/

/-! ## Basic string helpers (Rust std behaviour used by the sources) -/

/-- `needle` occurs at the start of `hay` (Rust `str::starts_with` on the
decomposed char lists; used to model `str::contains`). -/
def startsWithSeq : List Char → List Char → Bool
  | _, [] => true
  | [], _ :: _ => false
  | h :: t, n :: ns => h = n && startsWithSeq t ns

/-- Rust `str::contains` (substring search) on char lists. -/
def containsSeq (hay needle : List Char) : Bool :=
  startsWithSeq hay needle ||
    match hay with
    | [] => false
    | _ :: t => containsSeq t needle

/-- Rust `str::to_lowercase`, modelled per-char (ASCII case of the Unicode
mapping). -/
def lowerStr (l : List Char) : List Char := l.map Char.toLower

/-- Rust `str::trim`: strip whitespace from both ends. -/
def trimChars (l : List Char) : List Char :=
  ((l.dropWhile Char.isWhitespace).reverse.dropWhile Char.isWhitespace).reverse

/-- Value of a digit string (most significant first). -/
def digitsToNat (l : List Char) : Nat :=
  l.foldl (fun acc c => 10 * acc + (c.toNat - '0'.toNat)) 0

/-- Rust `str::parse::<i32>` on the all-digit (non-negative) strings the
title regex produces: succeeds iff the digits are non-empty and the value
fits in an `i32`. -/
def parseI32digits (l : List Char) : Option Int :=
  if !l.isEmpty && l.all Char.isDigit && decide (digitsToNat l ≤ 2147483647)
  then some (digitsToNat l) else none

/-- Rust `str::parse::<i8>` on the all-digit (non-negative) strings the
title regex produces: succeeds iff the digits are non-empty and the value
fits in an `i8`. -/
def parseI8digits (l : List Char) : Option Int :=
  if !l.isEmpty && l.all Char.isDigit && decide (digitsToNat l ≤ 127)
  then some (digitsToNat l) else none

/-- Byte stream fed to a hasher for a string (`hasher.update(s)` feeds the
UTF-8 bytes). -/
def strBytes (s : String) : List UInt8 := s.toUTF8.toList

/-- `bytemuck::bytes_of(&(n : i64))`: the 8 little-endian two's-complement
bytes of an `i64`. -/
def i64leBytes (n : Int) : List UInt8 :=
  let m := (n % (2 ^ 64 : Int)).toNat
  [UInt8.ofNat (m % 256), UInt8.ofNat (m / 256 % 256),
   UInt8.ofNat (m / 256 ^ 2 % 256), UInt8.ofNat (m / 256 ^ 3 % 256),
   UInt8.ofNat (m / 256 ^ 4 % 256), UInt8.ofNat (m / 256 ^ 5 % 256),
   UInt8.ofNat (m / 256 ^ 6 % 256), UInt8.ofNat (m / 256 ^ 7 % 256)]

/-! ## `rule.rs`: the pattern AST and evaluator -/

/-- `rule::Pattern`. -/
inductive Pattern where
  | Exact : String → Pattern
  | Or : Pattern → Pattern → Pattern
  | And : Pattern → Pattern → Pattern
  | Not : Pattern → Pattern
deriving DecidableEq, Repr

/-- `Pattern::does_string_match`: case-insensitive substring match at the
leaves, plain boolean combination above. -/
def Pattern.does_string_match : Pattern → String → Bool
  | .Exact kwd, s => containsSeq (lowerStr s.data) (lowerStr kwd.data)
  | .Or p1 p2, s => p1.does_string_match s || p2.does_string_match s
  | .And p1 p2, s => p1.does_string_match s && p2.does_string_match s
  | .Not p, s => !p.does_string_match s

/-- `Pattern::does_string_option_match`: on an absent field the result is
`matches!(self, Pattern::Not(_))`. -/
def Pattern.does_string_option_match (p : Pattern) (s : Option String) : Bool :=
  match s with
  | some s => p.does_string_match s
  | none =>
    match p with
    | .Not _ => true
    | _ => false

/-- `Pattern::hash`, parameterised by the digest function (the source uses
MD5; every property claimed of the fingerprint is a property of the byte
stream fed to the digest, so the digest is abstracted as an arbitrary
`List UInt8 → List UInt8`). The stream mirrors the `hasher.update` calls:
an operator tag (`"||"`, `"&&"`, `"!"`), then the recursive digests of the
operands in order; `Exact` feeds the raw keyword bytes. -/
def Pattern.hashW (digest : List UInt8 → List UInt8) : Pattern → List UInt8
  | .Exact s => digest (strBytes s)
  | .Or p1 p2 =>
      digest (strBytes "||" ++ Pattern.hashW digest p1 ++ Pattern.hashW digest p2)
  | .And p1 p2 =>
      digest (strBytes "&&" ++ Pattern.hashW digest p1 ++ Pattern.hashW digest p2)
  | .Not p => digest (strBytes "!" ++ Pattern.hashW digest p)

/-- `rule::PatternAndSource`: a compiled pattern together with the source
text it was parsed from. -/
structure PatternAndSource where
  source : String
  pattern : Pattern
deriving DecidableEq, Repr

/-- `rule::Rule`. -/
structure Rule where
  name : Option String
  link_flair_pattern : Option PatternAndSource
  product_type_pattern : Option PatternAndSource
  description_pattern : Option PatternAndSource
  price_min_dollars : Option Int
  price_max_dollars : Option Int
deriving DecidableEq, Repr

/-- `Rule::name()`; renamed because the structure field `name` exists. -/
def Rule.nameOrDefault (r : Rule) : String :=
  match r.name with
  | some n => n
  | none => "(unnamed rule)"

/-- `Rule::hash`, parameterised by the digest function and the final
rendering (`base64` in the source). Mirrors the sequence of
`hasher.update` calls: name bytes if present, then each present pattern's
structural digest (note: only `.pattern`, never `.source`), then the raw
`i64` bytes of each present bound. -/
def Rule.hash (digest : List UInt8 → List UInt8) (enc : List UInt8 → String)
    (r : Rule) : String :=
  enc (digest (
    (match r.name with | some n => strBytes n | none => []) ++
    (match r.link_flair_pattern with
     | some p => Pattern.hashW digest p.pattern | none => []) ++
    (match r.product_type_pattern with
     | some p => Pattern.hashW digest p.pattern | none => []) ++
    (match r.description_pattern with
     | some p => Pattern.hashW digest p.pattern | none => []) ++
    (match r.price_min_dollars with | some m => i64leBytes m | none => []) ++
    (match r.price_max_dollars with | some m => i64leBytes m | none => [])))

/-- `rule::Rules`: the ordered rule list. -/
structure Rules where
  rules : List Rule
deriving DecidableEq, Repr

/-! ## `rule.rs`: the tokenizer and parser -/

/-- `rule::Token`. -/
inductive Token where
  | ParenOpen : Token
  | ParenClose : Token
  | OpAnd : Token
  | OpOr : Token
  | OpNegate : Token
  | Keyword : String → Token
deriving DecidableEq, Repr

/-- `rule::Error` (the `Tokens`/`MaybeToken`/`MaybeChar` display wrappers of
the source are plain `List Token`/`Option Token`/`Option Char` here). -/
inductive Error where
  | ExpectedButGotToken : Nat → List Token → Option Token → Error
  | ExpectedButGotChar : Nat → String → Option Char → Error
  | ExpectedNonWhitespace : Nat → Option Char → Error
  | InvalidKeywordChar : Nat → Char → Error
  | EmptyKeyword : Nat → Error
  | CantRewindToken : Nat → Error
  | NotAnObject : Error
  | BadValue : String → Error
deriving DecidableEq, Repr

/-- `rule::Scanner`'s state: the source (as chars, since the Rust scanner
walks `source.chars().nth(cursor)`), the cursor, and the position of the
last token start. -/
structure ScanState where
  source : List Char
  cursor : Nat
  last_token : Option Nat
deriving DecidableEq, Repr

/-- `Scanner::peek`. -/
def ScanState.peek (s : ScanState) : Option Char := s.source.get? s.cursor

/-- `Scanner::pop`: returns the char at the cursor (if any) and
unconditionally advances the cursor. -/
def ScanState.pop (s : ScanState) : Option Char × ScanState :=
  (s.source.get? s.cursor, { s with cursor := s.cursor + 1 })

/-- Advance the cursor by one (a `pop` whose result is discarded). -/
def ScanState.bump (s : ScanState) : ScanState := { s with cursor := s.cursor + 1 }

/-- `Scanner::take`. -/
def ScanState.take (s : ScanState) (ch : Char) : Bool × ScanState :=
  match s.peek with
  | some actual => if actual = ch then (true, s.bump) else (false, s)
  | none => (false, s)

/-- `Scanner::is_done`: `cursor == source.len()`. -/
def ScanState.isDone (s : ScanState) : Bool := s.cursor == s.source.length

/-- `Scanner::rewind_cursor`. -/
def rewindCursor (s : ScanState) : Except Error ScanState :=
  match s.last_token with
  | some lt => .ok { s with cursor := lt, last_token := none }
  | none => .error (.CantRewindToken s.cursor)

/-- The characters that terminate an unquoted keyword (the break condition
of the scan loop in `Scanner::keyword`). -/
def isTermChar (c : Char) : Bool :=
  c.isWhitespace || c = '!' || c = '|' || c = '&' || c = '(' || c = ')'

/-- The whitespace-skipping loop at the start of `Scanner::next_token`. -/
def skipWs (s : ScanState) : ScanState :=
  match h : s.peek with
  | some ch =>
    if ch.isWhitespace then skipWs { s with cursor := s.cursor + 1 } else s
  | none => s
termination_by s.source.length - s.cursor
decreasing_by
  simp only [ScanState.peek] at h
  have := (List.get?_eq_some.mp h).1
  omega

/-- The scan loop inside the unquoted branch of `Scanner::keyword`:
accumulate chars until a terminator or the end; a non-alphanumeric,
non-terminator char is an `InvalidKeywordChar` error. -/
def keywordLoop (kwd : List Char) (s : ScanState) :
    Except Error (List Char × ScanState) :=
  match h : s.peek with
  | some ch =>
    if isTermChar ch then .ok (kwd, s)
    else if !ch.isAlphanum then .error (.InvalidKeywordChar s.cursor ch)
    else keywordLoop (kwd ++ [ch]) { s with cursor := s.cursor + 1 }
  | none => .ok (kwd, s)
termination_by s.source.length - s.cursor
decreasing_by
  simp only [ScanState.peek] at h
  have := (List.get?_eq_some.mp h).1
  omega

/-- The scan loop of `Scanner::until_next_quote`: accumulate chars until a
closing quote (consumed) or the end of input (an unterminated quote simply
yields everything scanned; this is the source's behaviour). -/
def untilNextQuoteLoop (kwd : List Char) (s : ScanState) : List Char × ScanState :=
  match h : s.peek with
  | some ch =>
    if ch = '"' then (kwd, { s with cursor := s.cursor + 1 })
    else untilNextQuoteLoop (kwd ++ [ch]) { s with cursor := s.cursor + 1 }
  | none => (kwd, s)
termination_by s.source.length - s.cursor
decreasing_by
  simp only [ScanState.peek] at h
  have := (List.get?_eq_some.mp h).1
  omega

/-- `Scanner::until_next_quote`. -/
def untilNextQuote (s : ScanState) : Except Error (List Char × ScanState) :=
  let (tk, s1) := s.take '"'
  if tk then .error (.EmptyKeyword s1.cursor)
  else .ok (untilNextQuoteLoop [] s1)

/-- `Scanner::keyword`. Note that the first popped character is only checked
for non-whitespace — not for being alphanumeric; only the loop over the
following characters enforces the alphanumeric class. -/
def keyword (s : ScanState) : Except Error (List Char × ScanState) :=
  let (tk, s1) := s.take '"'
  if tk then untilNextQuote s1
  else if s1.isDone then .error (.ExpectedNonWhitespace s1.cursor none)
  else
    match s1.pop with
    | (some ch, s2) =>
      if ch.isWhitespace then .error (.ExpectedNonWhitespace s2.cursor (some ch))
      else keywordLoop [ch] s2
    | (none, s2) => .error (.ExpectedNonWhitespace s2.cursor none)

/-- `Scanner::next_token`. The Rust `match` over the peeked character is
rendered as the equivalent chain of equality tests on distinct literals. -/
def nextToken (s0 : ScanState) : Except Error (Option Token × ScanState) :=
  let s1 := skipWs s0
  let s := { s1 with last_token := some s1.cursor }
  match s.peek with
  | none => .ok (none, s)
  | some c =>
    if c = '(' then .ok (some .ParenOpen, s.bump)
    else if c = ')' then .ok (some .ParenClose, s.bump)
    else if c = '!' then .ok (some .OpNegate, s.bump)
    else if c = '|' then
      match (s.bump).pop with
      | (some c2, s2) =>
        if c2 = '|' then .ok (some .OpOr, s2)
        else .error (.ExpectedButGotChar s2.cursor "|" (some c2))
      | (none, s2) => .error (.ExpectedButGotChar s2.cursor "|" none)
    else if c = '&' then
      match (s.bump).pop with
      | (some c2, s2) =>
        if c2 = '&' then .ok (some .OpAnd, s2)
        else .error (.ExpectedButGotChar s2.cursor "&" (some c2))
      | (none, s2) => .error (.ExpectedButGotChar s2.cursor "&" none)
    else
      match keyword s with
      | .ok (kwd, s2) => .ok (some (.Keyword ⟨kwd⟩), s2)
      | .error e => .error e

/-- `rule::PartialPattern` (renamed: a right-nested chain of pending
operator applications produced by `Scanner::pattern_tail`). -/
inductive TailPattern where
  | And : Pattern → Option TailPattern → TailPattern
  | Or : Pattern → Option TailPattern → TailPattern

/-- `PartialPattern::apply`: fold the pending chain onto `lhs` left to
right, which is what makes `&&`/`||` left-associative at equal
precedence. -/
def TailPattern.apply : TailPattern → Pattern → Pattern
  | .And rhs rest, lhs =>
    match rest with
    | some rest => rest.apply (Pattern.And lhs rhs)
    | none => Pattern.And lhs rhs
  | .Or rhs rest, lhs =>
    match rest with
    | some rest => rest.apply (Pattern.Or lhs rhs)
    | none => Pattern.Or lhs rhs

mutual

/-- `Scanner::pattern` (fueled). -/
def patternF : Nat → ScanState → Option (Except Error (Pattern × ScanState))
  | 0, _ => none
  | fuel + 1, s =>
    match factorF fuel s with
    | none => none
    | some (.error e) => some (.error e)
    | some (.ok (f, s1)) =>
      match patternTailF fuel s1 with
      | none => none
      | some (.error e) => some (.error e)
      | some (.ok (none, s2)) => some (.ok (f, s2))
      | some (.ok (some pp, s2)) => some (.ok (pp.apply f, s2))

/-- `Scanner::pattern_tail` (fueled). -/
def patternTailF : Nat → ScanState →
    Option (Except Error (Option TailPattern × ScanState))
  | 0, _ => none
  | fuel + 1, s =>
    match nextToken s with
    | .error e => some (.error e)
    | .ok (tok, s1) =>
      match tok with
      | some .OpAnd =>
        match factorF fuel s1 with
        | none => none
        | some (.error e) => some (.error e)
        | some (.ok (f, s2)) =>
          match patternTailF fuel s2 with
          | none => none
          | some (.error e) => some (.error e)
          | some (.ok (rhs, s3)) => some (.ok (some (.And f rhs), s3))
      | some .OpOr =>
        match factorF fuel s1 with
        | none => none
        | some (.error e) => some (.error e)
        | some (.ok (f, s2)) =>
          match patternTailF fuel s2 with
          | none => none
          | some (.error e) => some (.error e)
          | some (.ok (rhs, s3)) => some (.ok (some (.Or f rhs), s3))
      | _ =>
        match rewindCursor s1 with
        | .error e => some (.error e)
        | .ok s2 => some (.ok (none, s2))

/-- `Scanner::factor` (fueled). In the unclosed-parenthesis branch the
source reports `MaybeToken(None)` regardless of the token actually seen;
that is reproduced here. -/
def factorF : Nat → ScanState → Option (Except Error (Pattern × ScanState))
  | 0, _ => none
  | fuel + 1, s =>
    match nextToken s with
    | .error e => .some (.error e)
    | .ok (tok, s1) =>
      match tok with
      | some .ParenOpen =>
        match patternF fuel s1 with
        | none => none
        | some (.error e) => some (.error e)
        | some (.ok (pat, s2)) =>
          match nextToken s2 with
          | .error e => some (.error e)
          | .ok (some .ParenClose, s3) => some (.ok (pat, s3))
          | .ok (_, s3) =>
            some (.error (.ExpectedButGotToken s3.cursor [.ParenClose] none))
      | some .OpNegate =>
        match patternF fuel s1 with
        | none => none
        | some (.error e) => some (.error e)
        | some (.ok (pat, s2)) => some (.ok (.Not pat, s2))
      | some (.Keyword kwd) => some (.ok (.Exact kwd, s1))
      | _ =>
        some (.error (.ExpectedButGotToken s1.cursor
          [.ParenOpen, .Keyword ""] tok))

end

/-- `rule::parse_pattern` on a char list, with fuel `length + 1` (each
nested parser call strictly consumes input, so this fuel is never
exhausted on inputs the claims touch; `none` is the fuel artifact). -/
def parsePatternL (src : List Char) : Option (Except Error Pattern) :=
  match patternF (src.length + 1) ⟨src, 0, none⟩ with
  | none => none
  | some (.error e) => some (.error e)
  | some (.ok (p, _)) => some (.ok p)

/-- `rule::parse_pattern`. -/
def parse_pattern (input : String) : Option (Except Error Pattern) :=
  parsePatternL input.data

/-! ## `models.rs`: posts and parsed titles -/

/-- `models::Post` (the `f64` vote/timestamp fields are modelled as `ℚ`;
nothing in the matched logic reads them). -/
structure Post where
  created_utc : ℚ
  downs : ℚ
  link_flair_text : Option String
  title : String
  ups : ℚ
  url : String
  id : String
deriving DecidableEq

/-- `Post::get_comments_url`. -/
def Post.get_comments_url (p : Post) : String :=
  "https://www.reddit.com/r/buildapcsales/comments/" ++ p.id

/-- `impl rule::Subject for Post`: the listing-level predicate — the
link-flair pattern evaluated on the optional flair text, vacuously true
when the rule has no flair pattern. -/
def Post.is_match (p : Post) (r : Rule) : Bool :=
  match r.link_flair_pattern with
  | some lfp => lfp.pattern.does_string_option_match p.link_flair_text
  | none => true

/-- `models::Title` (`price_dollars : i32`, `price_cents : i8` as `Int`). -/
structure Title where
  post_id : String
  product_type : String
  description : String
  price_dollars : Int
  price_cents : Int
  extra_details : Option String
deriving DecidableEq, Repr

/-- `Title::price`: `dollars as f64 + 0.1 * cents as f64`. On the values a
parsed title can hold (|dollars| < 2^31, 0 ≤ cents ≤ 127) the `f64`
computation and comparisons against integer bounds are exact, so the price
is modelled in `ℚ`. -/
def Title.price (t : Title) : ℚ :=
  (t.price_dollars : ℚ) + (1 / 10) * (t.price_cents : ℚ)

/-- `impl rule::Subject for Title`: the title-level predicate — the
product-type and description patterns plus the two independent, inclusive
price bounds, mirroring the early-return chain of the source. -/
def Title.is_match (t : Title) (r : Rule) : Bool :=
  if (match r.product_type_pattern with
      | some p => !(p.pattern.does_string_match t.product_type)
      | none => false) then false
  else if (match r.description_pattern with
      | some p => !(p.pattern.does_string_match t.description)
      | none => false) then false
  else if (match r.price_min_dollars with
      | some m => decide ((m : ℚ) > t.price)
      | none => false) then false
  else if (match r.price_max_dollars with
      | some m => decide (t.price > (m : ℚ))
      | none => false) then false
  else true

/-- The `for` loop of `Rules::get_matching_rule`. -/
def getMatchingRuleList (post : Post) (title : Title) : List Rule → Option Rule
  | [] => none
  | r :: rest =>
    if post.is_match r && title.is_match r then some r
    else getMatchingRuleList post title rest

/-- `Rules::get_matching_rule`: first rule (in declaration order) for which
both the listing-level and the title-level predicate hold. -/
def Rules.get_matching_rule (rs : Rules) (post : Post) (title : Title) :
    Option Rule :=
  getMatchingRuleList post title rs.rules

/-! ## `models.rs`: title extraction

`Title::parse` matches the fixed regex
`\[(?P<type>[ \w]+)\](?P<desc>[^$]*)\$(?P<price_dollars>\d+)(\.(?P<price_cents>\d+))?(?P<extra>[^\d].*)?`
against the raw title. Because `]` is not in `[ \w]`, `$` is not in `[^$]`
and a digit is not in `[^\d]`, every quantifier in this particular regex is
forced (greedy-maximal with no viable backtracking), so leftmost-first
matching reduces to the deterministic scan below: try each `[` position
from the left; at each, take the maximal `[ \w]` run (must be non-empty and
followed by `]`), then the maximal `[^$]` run (must be followed by `$`),
then the maximal digit run (non-empty), then the optional `.`+digits cents
group, then the optional extra group (a non-digit char followed by `.*`,
which stops at a newline). -/

/-- `\w` (word char) of the regex crate, at the ASCII core. -/
def isWordChar (c : Char) : Bool := c.isAlphanum || c = '_'

/-- The `[ \w]` class of the title regex's category group. -/
def isTypeChar (c : Char) : Bool := c = ' ' || isWordChar c

/-- The named capture groups of the title regex. -/
structure RawCaptures where
  type : List Char
  desc : List Char
  dollars : List Char
  cents : Option (List Char)
  extra : Option (List Char)
deriving DecidableEq, Repr

/-- The optional `(\.(?P<price_cents>\d+))?` group: engages iff the rest
starts with `.` followed by at least one digit; returns the cents digits
(if any) and the remaining input. -/
def centsGroup (rest5 : List Char) : Option (List Char) × List Char :=
  match rest5 with
  | c3 :: rest6 =>
    if c3 = '.' then
      let cpart := rest6.takeWhile Char.isDigit
      if cpart.isEmpty then (none, rest5)
      else (some cpart, rest6.dropWhile Char.isDigit)
    else (none, rest5)
  | [] => (none, rest5)

/-- The optional `(?P<extra>[^\d].*)?` group: engages iff a non-digit char
remains; `.` (and so `.*`) stops at a newline, while `[^\d]` itself also
matches a newline. -/
def extraGroup (rest : List Char) : Option (List Char) :=
  match rest with
  | [] => none
  | c4 :: r =>
    if c4.isDigit then none
    else some (c4 :: r.takeWhile (fun x => x != '\n'))

/-- Match the title regex minus its leading `\[` at a fixed position (the
char list starts just after a `[`). The `match`/`if` chains on the chars
after each forced-maximal run mirror `\]`, `\$` and `\d+`. -/
def tryMatchAfterBracket (l : List Char) : Option RawCaptures :=
  let tpart := l.takeWhile isTypeChar
  let rest1 := l.dropWhile isTypeChar
  if tpart.isEmpty then none
  else
    match rest1 with
    | c1 :: rest2 =>
      if c1 = ']' then
        let dpart := rest2.takeWhile (fun c => c != '$')
        let rest3 := rest2.dropWhile (fun c => c != '$')
        match rest3 with
        | c2 :: rest4 =>
          if c2 = '$' then
            let npart := rest4.takeWhile Char.isDigit
            let rest5 := rest4.dropWhile Char.isDigit
            if npart.isEmpty then none
            else
              let cr := centsGroup rest5
              some ⟨tpart, dpart, npart, cr.1, extraGroup cr.2⟩
          else none
        | [] => none
      else none
    | [] => none

/-- Leftmost-match search: a match must start at a `[`, so try each `[`
position from the left. -/
def findCaptures : List Char → Option RawCaptures
  | [] => none
  | c :: rest =>
    if c = '[' then
      match tryMatchAfterBracket rest with
      | some caps => some caps
      | none => findCaptures rest
    else findCaptures rest

/-- `Title::parse`: regex capture, then trims and fixed-width integer
parses, any failure collapsing to `none` (the `?` operators of the
source). -/
def Title.parse (title : String) (post_id : String) : Option Title :=
  match findCaptures title.data with
  | none => none
  | some caps =>
    match parseI32digits caps.dollars with
    | none => none
    | some price_dollars =>
      match (match caps.cents with
             | some cs => parseI8digits cs
             | none => some 0) with
      | none => none
      | some price_cents =>
        some { post_id := post_id
               product_type := ⟨trimChars caps.type⟩
               description := ⟨trimChars caps.desc⟩
               price_dollars := price_dollars
               price_cents := price_cents
               extra_details := caps.extra.map (fun e => ⟨trimChars e⟩) }

/-! ## `reddit.rs`: polling cadence -/

/-- `reddit::Config` (durations in whole seconds, as the source constructs
them with `Duration::from_secs`). -/
structure RedditConfig where
  auth_host : String
  api_host : String
  token_file : String
  username : String
  password : String
  client_id : String
  client_secret : String
  user_agent : String
  wait_time_secs : Nat
deriving DecidableEq

/-- `reddit::Auth` (times/durations as whole seconds). -/
structure Auth where
  access_token : String
  expires_at : Nat
  ratelimit_used : Nat
  ratelimit_remaining : Nat
  ratelimit_reset : Nat
deriving DecidableEq

/-- `reddit::Client` (only the fields `get_wait_time` reads). -/
structure RedditClient where
  config : RedditConfig
  auth : Option Auth
deriving DecidableEq

/-- `Client::get_wait_time`: the configured fixed interval, unless recorded
auth state reports exactly zero remaining quota, in which case the
remote-reported reset duration. The result (in seconds) is the duration the
polling loop in `poll.rs` sleeps between fetches. -/
def RedditClient.get_wait_time (c : RedditClient) : Nat :=
  let wait := c.config.wait_time_secs
  match c.auth with
  | none => wait
  | some auth =>
    if auth.ratelimit_remaining = 0 then auth.ratelimit_reset else wait

/-! ## `poll.rs`: the notify stage -/

/-- `poll::MatchingPost`. -/
structure MatchingPost where
  matching_rule : Rule
  post : Post
  title : Title
deriving DecidableEq

/-- `poll::NotifyMessage`. -/
inductive NotifyMessage where
  | NewMatch : MatchingPost → NotifyMessage
  | TimerFired : NotifyMessage

/-- `discord::Embed` (the fields `match_to_embed` fills). -/
structure Embed where
  title : Option String
  description : Option String
  url : Option String
deriving DecidableEq

/-- `discord::CreateMessageRequest`. -/
structure CreateMessageRequest where
  content : Option String
  embeds : Option (List Embed)
deriving DecidableEq

/-- `poll::match_to_embed`. -/
def match_to_embed (m : MatchingPost) : Embed :=
  { title := some m.matching_rule.nameOrDefault
    description := some m.post.title
    url := some m.post.get_comments_url }

/-- `poll::matches_to_message_request`: one batched message whose embeds
are the queued matches in order. -/
def matches_to_message_request (ms : List MatchingPost) :
    CreateMessageRequest :=
  { content := some ("Found " ++ toString ms.length ++ " matches:")
    embeds := some (ms.map match_to_embed) }

/-- One iteration of the `notify_loop` body in `poll.rs`, as a state
machine on the queue: a `NewMatch` is appended to the queue; a `TimerFired`
with a non-empty queue emits the batched message for the whole queue (the
`notify`/`create_message` call, modelled as the second component) and
clears the queue; a `TimerFired` with an empty queue emits nothing. -/
def notifyStep (queue : List MatchingPost) (msg : NotifyMessage) :
    List MatchingPost × Option CreateMessageRequest :=
  match msg with
  | .NewMatch m => (queue ++ [m], none)
  | .TimerFired =>
    if !queue.isEmpty then ([], some (matches_to_message_request queue))
    else (queue, none)

/-! ## Concrete values used by witnesses -/

/-- A rule with no constraints: both predicates hold vacuously. -/
def ruleR1 : Rule :=
  { name := some "R1", link_flair_pattern := none, product_type_pattern := none
    description_pattern := none, price_min_dollars := none
    price_max_dollars := none }

/-- A second unconstrained rule, distinguishable from `ruleR1`. -/
def ruleR2 : Rule :=
  { name := some "R2", link_flair_pattern := none, product_type_pattern := none
    description_pattern := none, price_min_dollars := none
    price_max_dollars := none }

/-- A concrete post. -/
def post0 : Post :=
  { created_utc := 0, downs := 0, link_flair_text := none
    title := "[GPU] card $5", ups := 0, url := "u", id := "p0" }

/-- A concrete parsed title. -/
def title0 : Title :=
  { post_id := "p0", product_type := "GPU", description := "card"
    price_dollars := 5, price_cents := 0, extra_details := none }

/-- A concrete queued match. -/
def mp0 : MatchingPost := ⟨ruleR1, post0, title0⟩

/-- A rule whose flair pattern was written `nvidia&&rtx`. -/
def c3Rule1 : Rule :=
  { name := some "gpu deal"
    link_flair_pattern :=
      some ⟨"nvidia&&rtx", .And (.Exact "nvidia") (.Exact "rtx")⟩
    product_type_pattern := none, description_pattern := none
    price_min_dollars := none, price_max_dollars := some 500 }

/-- The same rule with the flair pattern written `nvidia  &&  rtx`:
different source text, identical AST. -/
def c3Rule2 : Rule :=
  { name := some "gpu deal"
    link_flair_pattern :=
      some ⟨"nvidia  &&  rtx", .And (.Exact "nvidia") (.Exact "rtx")⟩
    product_type_pattern := none, description_pattern := none
    price_min_dollars := none, price_max_dollars := some 500 }

/-! # Helper lemmas -/

section Helpers

lemma get?_eq_head_drop : ∀ (l : List Char) (n : Nat),
    l.get? n = (l.drop n).head?
  | [], 0 => rfl
  | [], _ + 1 => rfl
  | _ :: _, 0 => rfl
  | _ :: t, n + 1 => get?_eq_head_drop t n

lemma drop_add_char (l : List Char) (n m : Nat) :
    l.drop (n + m) = (l.drop n).drop m := by
  rw [List.drop_drop, Nat.add_comm]

lemma takeWhile_append_of_break {p : Char → Bool} :
    ∀ (pre : List Char) (c0 : Char) (post : List Char),
    (∀ c ∈ pre, p c = true) → p c0 = false →
    (pre ++ c0 :: post).takeWhile p = pre ∧
      (pre ++ c0 :: post).dropWhile p = c0 :: post := by
  intro pre
  induction pre with
  | nil =>
    intro c0 post _ hc0
    simp [List.takeWhile, List.dropWhile, hc0]
  | cons a t ih =>
    intro c0 post hpre hc0
    have ha : p a = true := hpre a (by simp)
    have ht := ih c0 post (fun c hc => hpre c (by simp [hc])) hc0
    simp [List.takeWhile, List.dropWhile, ha, ht.1, ht.2]

lemma takeWhile_append_of_all {p : Char → Bool} :
    ∀ (l : List Char), (∀ c ∈ l, p c = true) →
    l.takeWhile p = l ∧ l.dropWhile p = [] := by
  intro l
  induction l with
  | nil => intro _; simp
  | cons a t ih =>
    intro h
    have ha : p a = true := h a (by simp)
    have ht := ih (fun c hc => h c (by simp [hc]))
    simp [List.takeWhile, List.dropWhile, ha, ht.1, ht.2]

end Helpers

/-! # Claims -/

/-- **C2.** For every pattern `p`, evaluating `p` against an absent text
field (`does_string_option_match` with `none`) returns `true` iff the
outermost constructor of `p` is `Not`; for `Exact`, `And` and `Or` at the
top the result on an absent field is `false`. -/
theorem C2_vacuous_match_only_for_not (p : Pattern) :
    (p.does_string_option_match none = true ↔ ∃ q, p = Pattern.Not q) ∧
    (∀ s, (Pattern.Exact s).does_string_option_match none = false) ∧
    (∀ p1 p2, (Pattern.And p1 p2).does_string_option_match none = false) ∧
    (∀ p1 p2, (Pattern.Or p1 p2).does_string_option_match none = false) := by
  refine ⟨?_, fun s => rfl, fun p1 p2 => rfl, fun p1 p2 => rfl⟩
  cases p <;> simp [Pattern.does_string_option_match]

/-- **C9.** The inter-poll wait interval is the configured fixed interval;
except that when recorded auth state reports exactly zero remaining quota
it is the remote-reported reset duration; with no recorded auth state it is
the fixed interval. -/
theorem C9_wait_time (cfg : RedditConfig) :
    (RedditClient.get_wait_time ⟨cfg, none⟩ = cfg.wait_time_secs) ∧
    (∀ a : Auth, a.ratelimit_remaining = 0 →
      RedditClient.get_wait_time ⟨cfg, some a⟩ = a.ratelimit_reset) ∧
    (∀ a : Auth, a.ratelimit_remaining ≠ 0 →
      RedditClient.get_wait_time ⟨cfg, some a⟩ = cfg.wait_time_secs) := by
  refine ⟨rfl, fun a ha => ?_, fun a ha => ?_⟩ <;>
    simp [RedditClient.get_wait_time, ha]

/-- Witness for C9: both branches at concrete states. -/
theorem C9_wait_time_witness :
    RedditClient.get_wait_time
      ⟨{ auth_host := "", api_host := "", token_file := "", username := ""
         password := "", client_id := "", client_secret := "", user_agent := ""
         wait_time_secs := 60 },
       some { access_token := "t", expires_at := 0, ratelimit_used := 7
              ratelimit_remaining := 0, ratelimit_reset := 555 }⟩ = 555 ∧
    RedditClient.get_wait_time
      ⟨{ auth_host := "", api_host := "", token_file := "", username := ""
         password := "", client_id := "", client_secret := "", user_agent := ""
         wait_time_secs := 60 },
       some { access_token := "t", expires_at := 0, ratelimit_used := 7
              ratelimit_remaining := 3, ratelimit_reset := 555 }⟩ = 60 :=
  ⟨(C9_wait_time _).2.1 _ rfl, (C9_wait_time _).2.2 _ (by decide)⟩

/-- **C8.** For every queue state of the notify stage: a received match is
appended to the queue; a timer tick with a non-empty queue emits exactly
one batched message whose embeds are all queued matches in order and leaves
the queue empty; a timer tick with an empty queue emits nothing and the
queue stays empty. -/
theorem C8_notify_batching (q : List MatchingPost) :
    (∀ m, notifyStep q (.NewMatch m) = (q ++ [m], none)) ∧
    (q ≠ [] →
      notifyStep q .TimerFired = ([], some (matches_to_message_request q)) ∧
      (matches_to_message_request q).embeds = some (q.map match_to_embed)) ∧
    (notifyStep [] .TimerFired = ([], none)) := by
  refine ⟨fun m => rfl, fun hq => ⟨?_, rfl⟩, rfl⟩
  simp [notifyStep, List.isEmpty_iff, hq]

/-- Witness for C8: a tick with two queued matches sends one batch
containing both. -/
theorem C8_notify_batching_witness :
    notifyStep [mp0, mp0] .TimerFired =
      ([], some (matches_to_message_request [mp0, mp0])) ∧
    (matches_to_message_request [mp0, mp0]).embeds =
      some [match_to_embed mp0, match_to_embed mp0] :=
  ⟨((C8_notify_batching [mp0, mp0]).2.1 (by decide)).1, rfl⟩

/-- Rewrites a pattern segment of the `Rule::hash` stream as a function of
the projected AST only. -/
lemma hash_segment_pattern (digest : List UInt8 → List UInt8)
    (o : Option PatternAndSource) :
    (match o with
     | some p => Pattern.hashW digest p.pattern
     | none => ([] : List UInt8)) =
    (match o.map PatternAndSource.pattern with
     | some q => Pattern.hashW digest q
     | none => []) := by
  cases o <;> rfl

/-- **C3.** Two rules with equal names, equal bounds, and pattern fields
projecting to structurally identical ASTs have identical fingerprints, for
every digest function and every rendering of the digest: the fingerprint
never reads the pattern source text. -/
theorem C3_fingerprint_ignores_source
    (digest : List UInt8 → List UInt8) (enc : List UInt8 → String)
    (r1 r2 : Rule)
    (hname : r1.name = r2.name)
    (hlf : r1.link_flair_pattern.map PatternAndSource.pattern =
           r2.link_flair_pattern.map PatternAndSource.pattern)
    (hpt : r1.product_type_pattern.map PatternAndSource.pattern =
           r2.product_type_pattern.map PatternAndSource.pattern)
    (hd : r1.description_pattern.map PatternAndSource.pattern =
          r2.description_pattern.map PatternAndSource.pattern)
    (hmin : r1.price_min_dollars = r2.price_min_dollars)
    (hmax : r1.price_max_dollars = r2.price_max_dollars) :
    Rule.hash digest enc r1 = Rule.hash digest enc r2 := by
  unfold Rule.hash
  rw [hash_segment_pattern digest r1.link_flair_pattern,
      hash_segment_pattern digest r2.link_flair_pattern,
      hash_segment_pattern digest r1.product_type_pattern,
      hash_segment_pattern digest r2.product_type_pattern,
      hash_segment_pattern digest r1.description_pattern,
      hash_segment_pattern digest r2.description_pattern,
      hname, hlf, hpt, hd, hmin, hmax]

/-- The rule-list scan returns the head of the first match. -/
lemma getMatchingRuleList_first (post : Post) (title : Title) :
    ∀ (l1 : List Rule) (r : Rule) (l2 : List Rule),
    (post.is_match r && title.is_match r) = true →
    (∀ r' ∈ l1, (post.is_match r' && title.is_match r') = false) →
    getMatchingRuleList post title (l1 ++ r :: l2) = some r := by
  intro l1
  induction l1 with
  | nil =>
    intro r l2 hr _
    simp [getMatchingRuleList, hr]
  | cons a t ih =>
    intro r l2 hr hnone
    have ha : (post.is_match a && title.is_match a) = false :=
      hnone a (by simp)
    simp only [List.cons_append, getMatchingRuleList, ha]
    exact ih r l2 hr (fun r' hr' => hnone r' (by simp [hr']))

/-- The rule-list scan returns `none` iff no rule passes both predicates. -/
lemma getMatchingRuleList_none_iff (post : Post) (title : Title) :
    ∀ l : List Rule,
    getMatchingRuleList post title l = none ↔
      ∀ r ∈ l, (post.is_match r && title.is_match r) = false := by
  intro l
  induction l with
  | nil => simp [getMatchingRuleList]
  | cons a t ih =>
    by_cases ha : (post.is_match a && title.is_match a) = true
    · have hstep : getMatchingRuleList post title (a :: t) = some a := by
        simp [getMatchingRuleList, ha]
      rw [hstep]
      constructor
      · intro h
        exact absurd h (by simp)
      · intro hall
        exact absurd (hall a (by simp)) (by simp [ha])
    · simp only [Bool.not_eq_true] at ha
      have hstep : getMatchingRuleList post title (a :: t) =
          getMatchingRuleList post title t := by
        simp [getMatchingRuleList, ha]
      rw [hstep, ih, List.forall_mem_cons]
      tauto

/-- **C4.** `get_matching_rule` returns the first rule in declaration order
for which both the listing-level and the title-level predicate hold, and
returns `none` exactly when no rule satisfies both. -/
theorem C4_first_match_wins (rs : Rules) (post : Post) (title : Title) :
    (∀ (l1 : List Rule) (r : Rule) (l2 : List Rule),
      rs.rules = l1 ++ r :: l2 →
      (post.is_match r && title.is_match r) = true →
      (∀ r' ∈ l1, (post.is_match r' && title.is_match r') = false) →
      rs.get_matching_rule post title = some r) ∧
    (rs.get_matching_rule post title = none ↔
      ∀ r ∈ rs.rules, (post.is_match r && title.is_match r) = false) := by
  constructor
  · intro l1 r l2 hsplit hr hnone
    unfold Rules.get_matching_rule
    rw [hsplit]
    exact getMatchingRuleList_first post title l1 r l2 hr hnone
  · exact getMatchingRuleList_none_iff post title rs.rules

/-- Witness for C4: with two rules `[R1, R2]` that both match, `R1` is
selected. -/
theorem C4_first_match_wins_witness :
    ruleR1 ≠ ruleR2 ∧
    (post0.is_match ruleR2 && title0.is_match ruleR2) = true ∧
    Rules.get_matching_rule ⟨[ruleR1, ruleR2]⟩ post0 title0 = some ruleR1 :=
  ⟨by decide, by decide,
   (C4_first_match_wins ⟨[ruleR1, ruleR2]⟩ post0 title0).1 [] ruleR1 [ruleR2]
     rfl (by decide) (by intro r' h; simp at h)⟩

/-- **C6.** The title-level predicate holds iff the pattern checks pass and
the price `dollars + 0.1·cents` lies within the optional bounds, each
checked independently and inclusively: a present min passes iff
`min ≤ price`, a present max passes iff `price ≤ max`. -/
theorem C6_inclusive_price_bounds (t : Title) (r : Rule) :
    t.is_match r = true ↔
      ((∀ p ∈ r.product_type_pattern,
          p.pattern.does_string_match t.product_type = true) ∧
       (∀ p ∈ r.description_pattern,
          p.pattern.does_string_match t.description = true) ∧
       (∀ m ∈ r.price_min_dollars, (m : ℚ) ≤ t.price) ∧
       (∀ m ∈ r.price_max_dollars, t.price ≤ (m : ℚ))) := by
  rcases hpt : r.product_type_pattern with _ | pt <;>
    rcases hd : r.description_pattern with _ | dp <;>
      rcases hmin : r.price_min_dollars with _ | mn <;>
        rcases hmax : r.price_max_dollars with _ | mx <;>
          simp [Title.is_match, hpt, hd, hmin, hmax, not_lt,
            Option.mem_def, and_assoc]

/-- Witness for C3: two rules whose flair patterns have different source
text (`nvidia&&rtx` vs `nvidia  &&  rtx`) but equal ASTs — and whose
sources indeed parse to that common AST — get the same fingerprint (shown
for a concrete digest/rendering pair). -/
theorem C3_fingerprint_witness :
    c3Rule1.link_flair_pattern.map PatternAndSource.source ≠
      c3Rule2.link_flair_pattern.map PatternAndSource.source ∧
    Rule.hash (fun l => l) (fun l => toString l.length) c3Rule1 =
      Rule.hash (fun l => l) (fun l => toString l.length) c3Rule2 :=
  ⟨by decide,
   C3_fingerprint_ignores_source _ _ c3Rule1 c3Rule2 rfl rfl rfl rfl rfl rfl⟩

/-- Members of `dropWhile p l` are members of `l`. -/
lemma mem_of_mem_dropWhile {p : Char → Bool} :
    ∀ (l : List Char) (x : Char), x ∈ l.dropWhile p → x ∈ l := by
  intro l
  induction l with
  | nil => simp
  | cons a t ih =>
    intro x hx
    by_cases hpa : p a = true
    · rw [List.dropWhile_cons, if_pos hpa] at hx
      exact List.mem_cons_of_mem a (ih x hx)
    · rw [List.dropWhile_cons, if_neg hpa] at hx
      exact hx

/-- A successful regex match needs a `$` in the scanned suffix. -/
lemma dollar_mem_of_tryMatch (l : List Char) (caps : RawCaptures)
    (h : tryMatchAfterBracket l = some caps) : '$' ∈ l := by
  unfold tryMatchAfterBracket at h
  simp only [] at h
  split at h
  · exact absurd h (by simp)
  · split at h
    · rename_i rest1 c1 rest2 heq1
      split at h
      · split at h
        · rename_i rest3 c2 rest4 heq2
          split at h
          · rename_i hc2
            subst hc2
            have h2 : '$' ∈ rest2.dropWhile (fun c => c != '$') := by
              rw [heq2]; simp
            have h3 : '$' ∈ rest2 := mem_of_mem_dropWhile rest2 '$' h2
            have h4 : '$' ∈ l.dropWhile isTypeChar := by
              rw [heq1]; simp [h3]
            exact mem_of_mem_dropWhile l '$' h4
          · exact absurd h (by simp)
        · exact absurd h (by simp)
      · exact absurd h (by simp)
    · exact absurd h (by simp)

/-- No `[` in the title: the regex cannot match anywhere. -/
lemma findCaptures_none_of_no_bracket :
    ∀ l : List Char, '[' ∉ l → findCaptures l = none := by
  intro l
  induction l with
  | nil => intro _; rfl
  | cons c rest ih =>
    intro h
    have hc : c ≠ '[' := fun hc => h (by simp [hc])
    have hrest : '[' ∉ rest := fun hr => h (by simp [hr])
    simp [findCaptures, hc, ih hrest]

/-- No `$` in the title: the regex cannot match anywhere. -/
lemma findCaptures_none_of_no_dollar :
    ∀ l : List Char, '$' ∉ l → findCaptures l = none := by
  intro l
  induction l with
  | nil => intro _; rfl
  | cons c rest ih =>
    intro h
    have hrest : '$' ∉ rest := fun hr => h (by simp [hr])
    by_cases hc : c = '['
    · subst hc
      cases hm : tryMatchAfterBracket rest with
      | none => simp [findCaptures, hm, ih hrest]
      | some caps =>
        exact absurd (dollar_mem_of_tryMatch rest caps hm) hrest
    · simp [findCaptures, hc, ih hrest]

/-- The forced-maximal scan on a title of the shape
`[t]d$n r` (no cents group): each capture group is exactly the
corresponding segment. -/
lemma tryMatch_shape (t d n r : List Char)
    (ht : t ≠ []) (htc : ∀ c ∈ t, isTypeChar c = true)
    (hd : '$' ∉ d)
    (hn : n ≠ []) (hnd : ∀ c ∈ n, c.isDigit = true)
    (hr : r = [] ∨ ∃ c r', r = c :: r' ∧ c.isDigit = false ∧ c ≠ '.') :
    tryMatchAfterBracket (t ++ ']' :: (d ++ '$' :: (n ++ r))) =
      some ⟨t, d, n, none, extraGroup r⟩ := by
  have hbreak1 := takeWhile_append_of_break (p := isTypeChar) t ']'
    (d ++ '$' :: (n ++ r)) htc (by decide)
  have hd' : ∀ c ∈ d, (c != '$') = true := by
    intro c hc
    have : c ≠ '$' := fun he => hd (he ▸ hc)
    simp [this]
  have hbreak2 := takeWhile_append_of_break (p := fun c => c != '$') d '$'
    (n ++ r) hd' (by decide)
  have hnr : (n ++ r).takeWhile Char.isDigit = n ∧
      (n ++ r).dropWhile Char.isDigit = r := by
    rcases hr with rfl | ⟨c, r', rfl, hcd, _⟩
    · rw [List.append_nil]
      exact takeWhile_append_of_all n hnd
    · exact takeWhile_append_of_break n c r' hnd hcd
  have htne : t.isEmpty = false := by
    cases t with
    | nil => exact absurd rfl ht
    | cons a b => rfl
  have hnne : n.isEmpty = false := by
    cases n with
    | nil => exact absurd rfl hn
    | cons a b => rfl
  have hcents : centsGroup r = (none, r) := by
    rcases hr with rfl | ⟨c, r', rfl, _, hcdot⟩
    · rfl
    · simp [centsGroup, hcdot]
  unfold tryMatchAfterBracket
  simp only [hbreak1.1, hbreak1.2, htne, Bool.false_eq_true, if_false,
    hbreak2.1, hbreak2.2, hnr.1, hnr.2, hnne, hcents, reduceIte]

/-- `Title::parse` on a title of the shape `[t]d$n r` with no cents group:
category, description, dollars and extra notes are extracted exactly as
the spec describes, with cents defaulting to 0. -/
lemma titleParse_shape (pid : String) (t d n r : List Char)
    (ht : t ≠ []) (htc : ∀ c ∈ t, isTypeChar c = true)
    (hd : '$' ∉ d)
    (hn : n ≠ []) (hnd : ∀ c ∈ n, c.isDigit = true)
    (hfit : digitsToNat n ≤ 2147483647)
    (hr : r = [] ∨
      ∃ c r', r = c :: r' ∧ c.isDigit = false ∧ c ≠ '.' ∧ '\n' ∉ r') :
    Title.parse ⟨'[' :: (t ++ ']' :: (d ++ '$' :: (n ++ r)))⟩ pid =
      some { post_id := pid
             product_type := ⟨trimChars t⟩
             description := ⟨trimChars d⟩
             price_dollars := digitsToNat n
             price_cents := 0
             extra_details := if r.isEmpty then none
                              else some ⟨trimChars r⟩ } := by
  have hr' : r = [] ∨ ∃ c r', r = c :: r' ∧ c.isDigit = false ∧ c ≠ '.' := by
    rcases hr with h | ⟨c, r', h1, h2, h3, _⟩
    · exact Or.inl h
    · exact Or.inr ⟨c, r', h1, h2, h3⟩
  have hshape := tryMatch_shape t d n r ht htc hd hn hnd hr'
  have hex : extraGroup r = if r.isEmpty then none else some r := by
    rcases hr with rfl | ⟨c, r', rfl, hcd, _, hnl⟩
    · rfl
    · have hall : ∀ x ∈ r', (x != '\n') = true := by
        intro x hx
        have : x ≠ '\n' := fun he => hnl (he ▸ hx)
        simp [this]
      have htw := (takeWhile_append_of_all (p := fun x => x != '\n') r' hall).1
      simp [extraGroup, hcd, htw]
  have hnne : n.isEmpty = false := by
    cases n with
    | nil => exact absurd rfl hn
    | cons a b => rfl
  have hi32 : parseI32digits n = some (digitsToNat n) := by
    have hall : n.all Char.isDigit = true := List.all_eq_true.mpr hnd
    simp [parseI32digits, hall, hfit, hnne]
  unfold Title.parse
  simp only [findCaptures, reduceIte, hshape, hex, hi32]
  rcases hr' with rfl | ⟨c, r', rfl, _, _⟩ <;> simp

/-- When the regex finds no match, `Title::parse` returns `none`. -/
lemma titleParse_none_of_findCaptures_none (s pid : String)
    (h : findCaptures s.data = none) : Title.parse s pid = none := by
  unfold Title.parse
  rw [h]

/-- **C7 (amended).** Title extraction returns `none` (not an error) when
the bracketed category or the dollar amount cannot be located; on a title
of the shape `[t]d$n r` whose numeric groups fit their integer fields it
yields the bracketed token (trimmed) as product type, the trimmed text up
to the `$` as description, the integer dollars, cents 0 when the cents
group is absent, and the trimmed non-numeric trailing text as the optional
extra notes; a cents group, when present and fitting in an `i8`, is
extracted as the cents value. -/
theorem C7_amended_title_extraction :
    (∀ (s pid : String), '[' ∉ s.data → Title.parse s pid = none) ∧
    (∀ (s pid : String), '$' ∉ s.data → Title.parse s pid = none) ∧
    (∀ (pid : String) (t d n r : List Char),
      t ≠ [] → (∀ c ∈ t, isTypeChar c = true) →
      '$' ∉ d →
      n ≠ [] → (∀ c ∈ n, c.isDigit = true) →
      digitsToNat n ≤ 2147483647 →
      (r = [] ∨
        ∃ c r', r = c :: r' ∧ c.isDigit = false ∧ c ≠ '.' ∧ '\n' ∉ r') →
      Title.parse ⟨'[' :: (t ++ ']' :: (d ++ '$' :: (n ++ r)))⟩ pid =
        some { post_id := pid
               product_type := ⟨trimChars t⟩
               description := ⟨trimChars d⟩
               price_dollars := digitsToNat n
               price_cents := 0
               extra_details := if r.isEmpty then none
                                else some ⟨trimChars r⟩ }) ∧
    Title.parse "[GPU] ASUS Card - Black $799.99" "x" =
      some { post_id := "x", product_type := "GPU"
             description := "ASUS Card - Black", price_dollars := 799
             price_cents := 99, extra_details := none } := by
  refine ⟨fun s pid h => ?_, fun s pid h => ?_,
    fun pid t d n r h1 h2 h3 h4 h5 h6 h7 => ?_, by decide⟩
  · exact titleParse_none_of_findCaptures_none s pid
      (findCaptures_none_of_no_bracket s.data h)
  · exact titleParse_none_of_findCaptures_none s pid
      (findCaptures_none_of_no_dollar s.data h)
  · exact titleParse_shape pid t d n r h1 h2 h3 h4 h5 h6 h7

/-- Witness for the amended C7: the spec's own example title. -/
theorem C7_amended_title_extraction_witness :
    Title.parse "[MOBO] x $196 FS" "id" =
      some { post_id := "id", product_type := "MOBO", description := "x"
             price_dollars := 196, price_cents := 0
             extra_details := some "FS" } :=
  C7_amended_title_extraction.2.2.1 "id" "MOBO".data " x ".data "196".data
    " FS".data (by decide) (by decide) (by decide) (by decide) (by decide)
    (by decide)
    (Or.inr ⟨' ', ['F', 'S'], rfl, by decide, by decide, by decide⟩)

/-- Counterexample to C7 as stated: in `"[GPU] card $1.999"` both the
bracketed category and the dollar amount are present (and located by the
regex), yet extraction returns `none` — the cents digits `999` do not fit
the `i8` cents field. -/
theorem C7_counterexample_overflowing_cents :
    '[' ∈ "[GPU] card $1.999".data ∧
    '$' ∈ "[GPU] card $1.999".data ∧
    Title.parse "[GPU] card $1.999" "id" = none :=
  ⟨by decide, by decide, by decide⟩

/-- **C10.** A title containing both a bracketed category and a dollar
amount for which extraction nevertheless returns `none`: the cents group
`999` of `"[GPU] card $1.999"` is captured by the regex but its value is
outside the `i8` range, so the cents parse fails and the whole extraction
yields `none`. -/
theorem C10_cents_overflow :
    '[' ∈ "[GPU] card $1.999".data ∧
    '$' ∈ "[GPU] card $1.999".data ∧
    (findCaptures "[GPU] card $1.999".data).map RawCaptures.cents =
      some (some ['9', '9', '9']) ∧
    parseI8digits ['9', '9', '9'] = none ∧
    Title.parse "[GPU] card $1.999" "id" = none :=
  ⟨by decide, by decide, by decide, by decide, by decide⟩

/-- `peek` is the head of the input remaining past the cursor. -/
lemma peek_drop (s : ScanState) : s.peek = (s.source.drop s.cursor).head? :=
  get?_eq_head_drop s.source s.cursor

/-- An alphanumeric char is distinct from any non-alphanumeric char. -/
lemma alnum_ne (c : Char) (h : c.isAlphanum = true) {d : Char}
    (hd : d.isAlphanum = false) : c ≠ d := by
  intro he
  subst he
  rw [h] at hd
  exact absurd hd (by simp)

/-- An alphanumeric char is not whitespace. -/
lemma alnum_not_ws (c : Char) (h : c.isAlphanum = true) :
    c.isWhitespace = false := by
  have h1 : c ≠ ' ' := alnum_ne c h (by decide)
  have h2 : c ≠ '\t' := alnum_ne c h (by decide)
  have h3 : c ≠ '\r' := alnum_ne c h (by decide)
  have h4 : c ≠ '\n' := alnum_ne c h (by decide)
  simp [Char.isWhitespace, h1, h2, h3, h4]

/-- An alphanumeric char is not a keyword terminator. -/
lemma alnum_not_term (c : Char) (h : c.isAlphanum = true) :
    isTermChar c = false := by
  have h1 : c ≠ '!' := alnum_ne c h (by decide)
  have h2 : c ≠ '|' := alnum_ne c h (by decide)
  have h3 : c ≠ '&' := alnum_ne c h (by decide)
  have h4 : c ≠ '(' := alnum_ne c h (by decide)
  have h5 : c ≠ ')' := alnum_ne c h (by decide)
  simp [isTermChar, alnum_not_ws c h, h1, h2, h3, h4, h5]

/-- `skipWs` at the end of input. -/
lemma skipWs_none (s : ScanState) (h : s.peek = none) : skipWs s = s := by
  unfold skipWs
  split
  · rename_i ch hch
    rw [h] at hch
    exact absurd hch (by simp)
  · rfl

/-- `skipWs` on a non-whitespace char. -/
lemma skipWs_some_nws (s : ScanState) (c : Char) (h : s.peek = some c)
    (hc : c.isWhitespace = false) : skipWs s = s := by
  unfold skipWs
  split
  · rename_i ch hch
    rw [h] at hch
    injection hch with hch
    subst hch
    rw [hc]
    simp
  · rfl

/-- `skipWs` steps over a whitespace char. -/
lemma skipWs_some_ws (s : ScanState) (c : Char) (h : s.peek = some c)
    (hc : c.isWhitespace = true) :
    skipWs s = skipWs { s with cursor := s.cursor + 1 } := by
  conv_lhs => rw [skipWs.eq_def]
  split
  · rename_i ch hch
    rw [h] at hch
    injection hch with hch
    subst hch
    rw [hc]
    simp
  · rename_i hch
    exact absurd (h.symm.trans hch) (by simp)

/-- `skipWs` consumes exactly a whitespace run. -/
lemma skipWs_run (w : List Char) : ∀ (s : ScanState) (rest : List Char),
    (∀ c ∈ w, c.isWhitespace = true) →
    s.source.drop s.cursor = w ++ rest →
    (rest = [] ∨ ∃ c r, rest = c :: r ∧ c.isWhitespace = false) →
    skipWs s = { s with cursor := s.cursor + w.length } := by
  induction w with
  | nil =>
    intro s rest _ hdrop hrest
    rw [List.nil_append] at hdrop
    have hres : skipWs s = s := by
      rcases hrest with rfl | ⟨c, r, rfl, hc⟩
      · exact skipWs_none s (by rw [peek_drop, hdrop]; rfl)
      · exact skipWs_some_nws s c (by rw [peek_drop, hdrop]; rfl) hc
    rw [hres]
    rfl
  | cons a w' ih =>
    intro s rest hw hdrop hrest
    have ha : a.isWhitespace = true := hw a (by simp)
    have hpeek : s.peek = some a := by
      rw [peek_drop, hdrop]
      rfl
    rw [skipWs_some_ws s a hpeek ha]
    have hdrop' : ({ s with cursor := s.cursor + 1 } :
        ScanState).source.drop (s.cursor + 1) = w' ++ rest := by
      rw [drop_add_char, hdrop]
      rfl
    rw [ih { s with cursor := s.cursor + 1 } rest
      (fun c hc => hw c (by simp [hc])) hdrop' hrest]
    congr 1
    simp
    omega

/-- `keywordLoop` at the end of input. -/
lemma keywordLoop_none (kwd : List Char) (s : ScanState)
    (h : s.peek = none) : keywordLoop kwd s = .ok (kwd, s) := by
  unfold keywordLoop
  split
  · rename_i ch hch
    rw [h] at hch
    exact absurd hch (by simp)
  · rfl

/-- `keywordLoop` stops at a terminator. -/
lemma keywordLoop_term (kwd : List Char) (s : ScanState) (c : Char)
    (h : s.peek = some c) (hc : isTermChar c = true) :
    keywordLoop kwd s = .ok (kwd, s) := by
  unfold keywordLoop
  split
  · rename_i ch hch
    rw [h] at hch
    injection hch with hch
    subst hch
    simp [hc]
  · rename_i hch
    exact absurd (h.symm.trans hch) (by simp)

/-- `keywordLoop` rejects a non-alphanumeric, non-terminator char. -/
lemma keywordLoop_bad (kwd : List Char) (s : ScanState) (c : Char)
    (h : s.peek = some c) (hc : isTermChar c = false)
    (hna : c.isAlphanum = false) :
    keywordLoop kwd s = .error (.InvalidKeywordChar s.cursor c) := by
  unfold keywordLoop
  split
  · rename_i ch hch
    rw [h] at hch
    injection hch with hch
    subst hch
    rw [hc, hna]
    simp
  · rename_i hch
    exact absurd (h.symm.trans hch) (by simp)

/-- `keywordLoop` consumes an alphanumeric char. -/
lemma keywordLoop_step (kwd : List Char) (s : ScanState) (c : Char)
    (h : s.peek = some c) (hc : isTermChar c = false)
    (ha : c.isAlphanum = true) :
    keywordLoop kwd s =
      keywordLoop (kwd ++ [c]) { s with cursor := s.cursor + 1 } := by
  conv_lhs => rw [keywordLoop.eq_def]
  split
  · rename_i ch hch
    rw [h] at hch
    injection hch with hch
    subst hch
    rw [hc, ha]
    simp
  · rename_i hch
    exact absurd (h.symm.trans hch) (by simp)

/-- `keywordLoop` over an alphanumeric run up to a terminator (or the
end): it accumulates exactly the run and stops in front of the
terminator. -/
lemma keywordLoop_run (a : List Char) : ∀ (s : ScanState) (kwd rest : List Char),
    (∀ c ∈ a, c.isAlphanum = true) →
    s.source.drop s.cursor = a ++ rest →
    (rest = [] ∨ ∃ c r, rest = c :: r ∧ isTermChar c = true) →
    keywordLoop kwd s =
      .ok (kwd ++ a, { s with cursor := s.cursor + a.length }) := by
  induction a with
  | nil =>
    intro s kwd rest _ hdrop hrest
    rw [List.nil_append] at hdrop
    have hres : keywordLoop kwd s = .ok (kwd, s) := by
      rcases hrest with rfl | ⟨c, r, rfl, hc⟩
      · exact keywordLoop_none kwd s (by rw [peek_drop, hdrop]; rfl)
      · exact keywordLoop_term kwd s c (by rw [peek_drop, hdrop]; rfl) hc
    rw [hres]
    simp
  | cons a0 a' ih =>
    intro s kwd rest ha hdrop hrest
    have ha0 : a0.isAlphanum = true := ha a0 (by simp)
    have hpeek : s.peek = some a0 := by
      rw [peek_drop, hdrop]
      rfl
    rw [keywordLoop_step kwd s a0 hpeek (alnum_not_term a0 ha0) ha0]
    have hdrop' : ({ s with cursor := s.cursor + 1 } :
        ScanState).source.drop (s.cursor + 1) = a' ++ rest := by
      rw [drop_add_char, hdrop]
      rfl
    rw [ih { s with cursor := s.cursor + 1 } (kwd ++ [a0]) rest
      (fun c hc => ha c (by simp [hc])) hdrop' hrest]
    simp only [Except.ok.injEq, Prod.mk.injEq]
    constructor
    · simp
    · congr 1
      simp
      omega

/-- `keywordLoop` errors at the first non-alphanumeric, non-terminator
char after an alphanumeric run, reporting its column. -/
lemma keywordLoop_error (good : List Char) :
    ∀ (s : ScanState) (kwd : List Char) (bad : Char) (r : List Char),
    (∀ c ∈ good, c.isAlphanum = true) →
    isTermChar bad = false → bad.isAlphanum = false →
    s.source.drop s.cursor = good ++ bad :: r →
    keywordLoop kwd s =
      .error (.InvalidKeywordChar (s.cursor + good.length) bad) := by
  induction good with
  | nil =>
    intro s kwd bad r _ hterm hna hdrop
    rw [List.nil_append] at hdrop
    rw [keywordLoop_bad kwd s bad (by rw [peek_drop, hdrop]; rfl) hterm hna]
    rfl
  | cons g0 g' ih =>
    intro s kwd bad r hg hterm hna hdrop
    have hg0 : g0.isAlphanum = true := hg g0 (by simp)
    have hpeek : s.peek = some g0 := by
      rw [peek_drop, hdrop]
      rfl
    rw [keywordLoop_step kwd s g0 hpeek (alnum_not_term g0 hg0) hg0]
    have hdrop' : ({ s with cursor := s.cursor + 1 } :
        ScanState).source.drop (s.cursor + 1) = g' ++ bad :: r := by
      rw [drop_add_char, hdrop]
      rfl
    rw [ih { s with cursor := s.cursor + 1 } (kwd ++ [g0]) bad r
      (fun c hc => hg c (by simp [hc])) hterm hna hdrop']
    congr 1
    simp
    omega

/-- Common prologue of `Scanner::keyword` on a non-quote, non-whitespace
first char: the quote test fails, the scanner is not done, and the first
char is popped into the keyword. -/
lemma keyword_unquoted (s : ScanState) (c0 : Char) (tail : List Char)
    (hpeek : s.source.drop s.cursor = c0 :: tail)
    (hq : c0 ≠ '"') (hws : c0.isWhitespace = false) :
    keyword s = keywordLoop [c0] { s with cursor := s.cursor + 1 } := by
  have hpk : s.peek = some c0 := by
    rw [peek_drop, hpeek]
    rfl
  have htake : s.take '"' = (false, s) := by
    unfold ScanState.take
    rw [hpk]
    simp [hq]
  have hlt : s.cursor < s.source.length := by
    by_contra hge
    push_neg at hge
    have hnil : s.source.drop s.cursor = [] := List.drop_eq_nil_of_le hge
    rw [hpeek] at hnil
    exact absurd hnil (by simp)
  have hdone : s.isDone = false := by
    unfold ScanState.isDone
    simp [Nat.ne_of_lt hlt]
  have hpop : s.pop = (some c0, { s with cursor := s.cursor + 1 }) := by
    unfold ScanState.pop
    rw [show s.source.get? s.cursor = some c0 from hpk]
  unfold keyword
  rw [htake]
  simp only [hdone, Bool.false_eq_true, if_false, hpop, hws]

/-- `Scanner::keyword` on an alphanumeric run followed by a terminator or
the end of input: returns exactly the run. -/
lemma keyword_run (a rest : List Char) (s : ScanState)
    (ha : a ≠ []) (halnum : ∀ c ∈ a, c.isAlphanum = true)
    (hdrop : s.source.drop s.cursor = a ++ rest)
    (hrest : rest = [] ∨ ∃ c r, rest = c :: r ∧ isTermChar c = true) :
    keyword s = .ok (a, { s with cursor := s.cursor + a.length }) := by
  obtain ⟨a0, a', rfl⟩ : ∃ a0 a', a = a0 :: a' := by
    cases a with
    | nil => exact absurd rfl ha
    | cons x y => exact ⟨x, y, rfl⟩
  have ha0 : a0.isAlphanum = true := halnum a0 (by simp)
  rw [keyword_unquoted s a0 (a' ++ rest) (by rw [hdrop]; rfl)
    (alnum_ne a0 ha0 (by decide)) (alnum_not_ws a0 ha0)]
  have hdrop' : ({ s with cursor := s.cursor + 1 } :
      ScanState).source.drop (s.cursor + 1) = a' ++ rest := by
    rw [drop_add_char, hdrop]
    rfl
  rw [keywordLoop_run a' { s with cursor := s.cursor + 1 } [a0] rest
    (fun c hc => halnum c (by simp [hc])) hdrop' hrest]
  simp only [Except.ok.injEq, Prod.mk.injEq]
  constructor
  · rfl
  · congr 1
    simp
    omega

/-- `Scanner::keyword` errors with `InvalidKeywordChar` when, after the
(unchecked) first char and an alphanumeric run, a non-alphanumeric
non-terminator char appears. -/
lemma keyword_invalid (s : ScanState) (c0 : Char) (good : List Char)
    (bad : Char) (r : List Char)
    (hdrop : s.source.drop s.cursor = c0 :: (good ++ bad :: r))
    (hq : c0 ≠ '"') (hws : c0.isWhitespace = false)
    (hg : ∀ c ∈ good, c.isAlphanum = true)
    (hterm : isTermChar bad = false) (hna : bad.isAlphanum = false) :
    keyword s =
      .error (.InvalidKeywordChar (s.cursor + 1 + good.length) bad) := by
  rw [keyword_unquoted s c0 (good ++ bad :: r) hdrop hq hws]
  have hdrop' : ({ s with cursor := s.cursor + 1 } :
      ScanState).source.drop (s.cursor + 1) = good ++ bad :: r := by
    rw [drop_add_char, hdrop]
    rfl
  exact keywordLoop_error good { s with cursor := s.cursor + 1 } [c0] bad r
    hg hterm hna hdrop'

/-- `Scanner::next_token` on optional whitespace followed by an
alphanumeric keyword run (delimited by a terminator or the end): yields
the keyword token, records the token start, and stops after the run. -/
lemma nextToken_keyword (w a rest : List Char) (s : ScanState)
    (hw : ∀ c ∈ w, c.isWhitespace = true)
    (ha : a ≠ []) (halnum : ∀ c ∈ a, c.isAlphanum = true)
    (hdrop : s.source.drop s.cursor = w ++ (a ++ rest))
    (hrest : rest = [] ∨ ∃ c r, rest = c :: r ∧ isTermChar c = true) :
    nextToken s = .ok (some (.Keyword ⟨a⟩),
      { s with cursor := s.cursor + w.length + a.length, last_token := some (s.cursor + w.length) }) := by
  obtain ⟨a0, a2, rfl⟩ : ∃ a0 a2, a = a0 :: a2 := by
    cases a with
    | nil => exact absurd rfl ha
    | cons x y => exact ⟨x, y, rfl⟩
  have ha0 : a0.isAlphanum = true := halnum a0 (by simp)
  have hskip : skipWs s = { s with cursor := s.cursor + w.length } :=
    skipWs_run w s ((a0 :: a2) ++ rest) hw hdrop
      (Or.inr ⟨a0, a2 ++ rest, rfl, alnum_not_ws a0 ha0⟩)
  have hdrop2 : s.source.drop (s.cursor + w.length) = (a0 :: a2) ++ rest := by
    rw [drop_add_char, hdrop, List.drop_left]
  have hpk : (({ s with cursor := s.cursor + w.length, last_token := some (s.cursor + w.length) }) : ScanState).peek = some a0 := by
    rw [peek_drop]
    simp only []
    rw [hdrop2]
    rfl
  have hkw := keyword_run (a0 :: a2) rest
    { s with cursor := s.cursor + w.length, last_token := some (s.cursor + w.length) }
    (by simp) halnum (by simp only []; rw [hdrop2]) hrest
  unfold nextToken
  simp only [hskip]
  rw [hpk]
  simp only [alnum_ne a0 ha0 (show ('(').isAlphanum = false by decide),
    alnum_ne a0 ha0 (show (')').isAlphanum = false by decide),
    alnum_ne a0 ha0 (show ('!').isAlphanum = false by decide),
    alnum_ne a0 ha0 (show ('|').isAlphanum = false by decide),
    alnum_ne a0 ha0 (show ('&').isAlphanum = false by decide),
    if_false, ite_false, if_neg]
  rw [hkw]

/-- `Scanner::next_token` on optional whitespace followed by `&&` or `||`:
yields the operator token and consumes both chars. -/
lemma nextToken_op (w rest : List Char) (o : Char) (t : Token) (s : ScanState)
    (ho : (o = '&' ∧ t = .OpAnd) ∨ (o = '|' ∧ t = .OpOr))
    (hw : ∀ c ∈ w, c.isWhitespace = true)
    (hdrop : s.source.drop s.cursor = w ++ (o :: o :: rest)) :
    nextToken s = .ok (some t,
      { s with cursor := s.cursor + w.length + 2, last_token := some (s.cursor + w.length) }) := by
  have hows : o.isWhitespace = false := by
    rcases ho with ⟨rfl, _⟩ | ⟨rfl, _⟩ <;> decide
  have hskip : skipWs s = { s with cursor := s.cursor + w.length } :=
    skipWs_run w s (o :: o :: rest) hw hdrop (Or.inr ⟨o, o :: rest, rfl, hows⟩)
  have hdrop2 : s.source.drop (s.cursor + w.length) = o :: o :: rest := by
    rw [drop_add_char, hdrop, List.drop_left]
  have hpk : (({ s with cursor := s.cursor + w.length, last_token := some (s.cursor + w.length) }) : ScanState).peek = some o := by
    rw [peek_drop]
    simp only []
    rw [hdrop2]
    rfl
  have hdrop3 : s.source.drop (s.cursor + w.length + 1) = o :: rest := by
    rw [drop_add_char s.source (s.cursor + w.length) 1, hdrop2]
    rfl
  have hpop : (({ s with cursor := s.cursor + w.length + 1, last_token := some (s.cursor + w.length) }) : ScanState).pop = (some o, { s with cursor := s.cursor + w.length + 1 + 1, last_token := some (s.cursor + w.length) }) := by
    unfold ScanState.pop
    rw [show (({ s with cursor := s.cursor + w.length + 1, last_token := some (s.cursor + w.length) }) : ScanState).source.get? (s.cursor + w.length + 1) = some o from by simp only []; rw [get?_eq_head_drop, hdrop3]; rfl]
  unfold nextToken
  simp only [hskip]
  rw [hpk]
  rcases ho with ⟨rfl, rfl⟩ | ⟨rfl, rfl⟩ <;>
    simp [ScanState.bump, hpop]

/-- `Scanner::next_token` on trailing whitespace only: yields no token and
records the end position as the (rewindable) token start. -/
lemma nextToken_eof (w : List Char) (s : ScanState)
    (hw : ∀ c ∈ w, c.isWhitespace = true)
    (hdrop : s.source.drop s.cursor = w) :
    nextToken s = .ok (none,
      { s with cursor := s.cursor + w.length, last_token := some (s.cursor + w.length) }) := by
  have hskip : skipWs s = { s with cursor := s.cursor + w.length } :=
    skipWs_run w s [] hw (by rw [hdrop, List.append_nil]) (Or.inl rfl)
  have hdrop2 : s.source.drop (s.cursor + w.length) = [] := by
    rw [drop_add_char, hdrop]
    simp
  have hpk : (({ s with cursor := s.cursor + w.length, last_token := some (s.cursor + w.length) }) : ScanState).peek = none := by
    rw [peek_drop]
    simp only []
    rw [hdrop2]
    rfl
  unfold nextToken
  simp only [hskip]
  rw [hpk]

/-- `Scanner::factor` on a keyword token: yields `Exact`. -/
lemma factorF_keyword (fuel : Nat) (w a rest : List Char) (s : ScanState)
    (hw : ∀ c ∈ w, c.isWhitespace = true)
    (ha : a ≠ []) (halnum : ∀ c ∈ a, c.isAlphanum = true)
    (hdrop : s.source.drop s.cursor = w ++ (a ++ rest))
    (hrest : rest = [] ∨ ∃ c r, rest = c :: r ∧ isTermChar c = true) :
    factorF (fuel + 1) s = some (.ok (.Exact ⟨a⟩,
      { s with cursor := s.cursor + w.length + a.length, last_token := some (s.cursor + w.length) })) := by
  have hnt := nextToken_keyword w a rest s hw ha halnum hdrop hrest
  unfold factorF
  rw [hnt]

/-- `Scanner::pattern_tail` at the end of input: no pending operator, and
the cursor is rewound to the recorded (end) position. -/
lemma patternTailF_end (fuel : Nat) (s : ScanState)
    (hdrop : s.source.drop s.cursor = []) :
    patternTailF (fuel + 1) s =
      some (.ok (none, { s with last_token := none })) := by
  have hnt : nextToken s = .ok (none,
      { s with cursor := s.cursor, last_token := some s.cursor }) :=
    nextToken_eof [] s (by simp) hdrop
  unfold patternTailF
  rw [hnt]
  rfl

/-- `Scanner::pattern_tail` on `" op b …"` (op either `&&` or `||`): reads
the operator and the following keyword factor, then chains the recursive
tail, producing the pending-operator node for `apply` to fold left. -/
lemma patternTailF_step (fuel : Nat) (s : ScanState) (o : Char) (t : Token)
    (q : Pattern → Option TailPattern → TailPattern)
    (b rest : List Char) (tl : Option TailPattern) (sf : ScanState)
    (ho : (o = '&' ∧ t = .OpAnd ∧ q = .And) ∨ (o = '|' ∧ t = .OpOr ∧ q = .Or))
    (hb : b ≠ []) (hbal : ∀ c ∈ b, c.isAlphanum = true)
    (hdrop : s.source.drop s.cursor = ' ' :: o :: o :: ' ' :: (b ++ rest))
    (hrest : rest = [] ∨ ∃ c r, rest = c :: r ∧ isTermChar c = true)
    (htail : patternTailF (fuel + 1) ({ s with cursor := s.cursor + 4 + b.length, last_token := some (s.cursor + 4) } : ScanState) = some (.ok (tl, sf))) :
    patternTailF (fuel + 1 + 1) s =
      some (.ok (some (q (.Exact ⟨b⟩) tl), sf)) := by
  have hop : nextToken s = .ok (some t,
      { s with cursor := s.cursor + 3, last_token := some (s.cursor + 1) }) :=
    nextToken_op [' '] (' ' :: (b ++ rest)) o t s
      (ho.imp (fun h => ⟨h.1, h.2.1⟩) (fun h => ⟨h.1, h.2.1⟩))
      (by decide) (by rw [hdrop]; rfl)
  have hfact : factorF (fuel + 1)
      ({ s with cursor := s.cursor + 3, last_token := some (s.cursor + 1) } : ScanState) =
      some (.ok (.Exact ⟨b⟩,
        { s with cursor := s.cursor + 4 + b.length, last_token := some (s.cursor + 4) })) :=
    factorF_keyword fuel [' '] b rest
      { s with cursor := s.cursor + 3, last_token := some (s.cursor + 1) }
      (by decide) hb hbal
      (by
        show s.source.drop (s.cursor + 3) = [' '] ++ (b ++ rest)
        rw [drop_add_char s.source s.cursor 3, hdrop]
        rfl)
      hrest
  set g := fuel + 1 with hg
  unfold patternTailF
  rw [hop]
  rcases ho with ⟨rfl, rfl, rfl⟩ | ⟨rfl, rfl, rfl⟩ <;>
    simp only [] <;> rw [hfact] <;> simp only [] <;> rw [htail]

/-- Folding two pending operators onto a leftmost factor associates them
left to right. -/
lemma apply_two (q1 q2 : Pattern → Option TailPattern → TailPattern)
    (m1 m2 : Pattern → Pattern → Pattern)
    (h1 : (q1 = TailPattern.And ∧ m1 = Pattern.And) ∨
          (q1 = TailPattern.Or ∧ m1 = Pattern.Or))
    (h2 : (q2 = TailPattern.And ∧ m2 = Pattern.And) ∨
          (q2 = TailPattern.Or ∧ m2 = Pattern.Or))
    (x y z : Pattern) :
    TailPattern.apply (q1 y (some (q2 z none))) x = m2 (m1 x y) z := by
  rcases h1 with ⟨rfl, rfl⟩ | ⟨rfl, rfl⟩ <;>
    rcases h2 with ⟨rfl, rfl⟩ | ⟨rfl, rfl⟩ <;> rfl

/-- The full parse of `a op₁ b op₂ c` for any combination of `&&`/`||`:
the second operator is applied to the result of the first — equal
precedence, strict left-to-right association. -/
lemma parse_triple (a b c : List Char) (o1 o2 : Char) (t1 t2 : Token)
    (q1 q2 : Pattern → Option TailPattern → TailPattern)
    (m1 m2 : Pattern → Pattern → Pattern)
    (ho1 : (o1 = '&' ∧ t1 = .OpAnd ∧ q1 = .And ∧ m1 = .And) ∨
           (o1 = '|' ∧ t1 = .OpOr ∧ q1 = .Or ∧ m1 = .Or))
    (ho2 : (o2 = '&' ∧ t2 = .OpAnd ∧ q2 = .And ∧ m2 = .And) ∨
           (o2 = '|' ∧ t2 = .OpOr ∧ q2 = .Or ∧ m2 = .Or))
    (ha : a ≠ []) (haal : ∀ ch ∈ a, ch.isAlphanum = true)
    (hb : b ≠ []) (hbal : ∀ ch ∈ b, ch.isAlphanum = true)
    (hc : c ≠ []) (hcal : ∀ ch ∈ c, ch.isAlphanum = true) :
    parsePatternL
        (a ++ ' ' :: o1 :: o1 :: ' ' :: (b ++ ' ' :: o2 :: o2 :: ' ' :: c)) =
      some (.ok (m2 (m1 (.Exact ⟨a⟩) (.Exact ⟨b⟩)) (.Exact ⟨c⟩))) := by
  have hlen : (a ++ ' ' :: o1 :: o1 :: ' ' ::
        (b ++ ' ' :: o2 :: o2 :: ' ' :: c)).length + 1 =
      a.length + b.length + c.length + 5 + 1 + 1 + 1 + 1 := by
    simp [List.length_append]
    omega
  have hdrop1 : (a ++ ' ' :: o1 :: o1 :: ' ' ::
        (b ++ ' ' :: o2 :: o2 :: ' ' :: c)).drop a.length =
      ' ' :: o1 :: o1 :: ' ' :: (b ++ ' ' :: o2 :: o2 :: ' ' :: c) :=
    List.drop_left a _
  have hdrop2 : (a ++ ' ' :: o1 :: o1 :: ' ' ::
        (b ++ ' ' :: o2 :: o2 :: ' ' :: c)).drop
        (a.length + 4 + b.length) = ' ' :: o2 :: o2 :: ' ' :: c := by
    rw [drop_add_char _ (a.length + 4) b.length,
      drop_add_char _ a.length 4, hdrop1]
    show (b ++ ' ' :: o2 :: o2 :: ' ' :: c).drop b.length = _
    exact List.drop_left b _
  have hdrop4 : (a ++ ' ' :: o1 :: o1 :: ' ' ::
        (b ++ ' ' :: o2 :: o2 :: ' ' :: c)).drop
        (a.length + 4 + b.length + 4 + c.length) = [] := by
    rw [drop_add_char _ (a.length + 4 + b.length + 4) c.length,
      drop_add_char _ (a.length + 4 + b.length) 4, hdrop2]
    show c.drop c.length = []
    exact List.drop_length c
  have hfa : factorF (a.length + b.length + c.length + 5 + 1 + 1 + 1)
      ⟨a ++ ' ' :: o1 :: o1 :: ' ' :: (b ++ ' ' :: o2 :: o2 :: ' ' :: c),
       0, none⟩ =
      some (.ok (.Exact ⟨a⟩,
        ⟨a ++ ' ' :: o1 :: o1 :: ' ' :: (b ++ ' ' :: o2 :: o2 :: ' ' :: c),
         a.length, some 0⟩)) := by
    have h := factorF_keyword (a.length + b.length + c.length + 5 + 1 + 1)
      [] a (' ' :: o1 :: o1 :: ' ' :: (b ++ ' ' :: o2 :: o2 :: ' ' :: c))
      ⟨a ++ ' ' :: o1 :: o1 :: ' ' :: (b ++ ' ' :: o2 :: o2 :: ' ' :: c),
       0, none⟩
      (by simp) ha haal rfl
      (Or.inr ⟨' ', o1 :: o1 :: ' ' :: (b ++ ' ' :: o2 :: o2 :: ' ' :: c),
        rfl, by decide⟩)
    simpa using h
  have hend : patternTailF (a.length + b.length + c.length + 5 + 1)
      ⟨a ++ ' ' :: o1 :: o1 :: ' ' :: (b ++ ' ' :: o2 :: o2 :: ' ' :: c),
       a.length + 4 + b.length + 4 + c.length,
       some (a.length + 4 + b.length + 4)⟩ =
      some (.ok (none,
        ⟨a ++ ' ' :: o1 :: o1 :: ' ' :: (b ++ ' ' :: o2 :: o2 :: ' ' :: c),
         a.length + 4 + b.length + 4 + c.length, none⟩)) :=
    patternTailF_end (a.length + b.length + c.length + 5) _ hdrop4
  have hstep2 : patternTailF (a.length + b.length + c.length + 5 + 1 + 1)
      ⟨a ++ ' ' :: o1 :: o1 :: ' ' :: (b ++ ' ' :: o2 :: o2 :: ' ' :: c),
       a.length + 4 + b.length, some (a.length + 4)⟩ =
      some (.ok (some (q2 (.Exact ⟨c⟩) none),
        ⟨a ++ ' ' :: o1 :: o1 :: ' ' :: (b ++ ' ' :: o2 :: o2 :: ' ' :: c),
         a.length + 4 + b.length + 4 + c.length, none⟩)) :=
    patternTailF_step (a.length + b.length + c.length + 5)
      ⟨a ++ ' ' :: o1 :: o1 :: ' ' :: (b ++ ' ' :: o2 :: o2 :: ' ' :: c),
       a.length + 4 + b.length, some (a.length + 4)⟩ o2 t2 q2 c [] none
      ⟨a ++ ' ' :: o1 :: o1 :: ' ' :: (b ++ ' ' :: o2 :: o2 :: ' ' :: c),
       a.length + 4 + b.length + 4 + c.length, none⟩
      (ho2.imp (fun h => ⟨h.1, h.2.1, h.2.2.1⟩)
        (fun h => ⟨h.1, h.2.1, h.2.2.1⟩))
      hc hcal
      (by rw [List.append_nil]; exact hdrop2)
      (Or.inl rfl)
      hend
  have hstep1 : patternTailF (a.length + b.length + c.length + 5 + 1 + 1 + 1)
      ⟨a ++ ' ' :: o1 :: o1 :: ' ' :: (b ++ ' ' :: o2 :: o2 :: ' ' :: c),
       a.length, some 0⟩ =
      some (.ok (some (q1 (.Exact ⟨b⟩) (some (q2 (.Exact ⟨c⟩) none))),
        ⟨a ++ ' ' :: o1 :: o1 :: ' ' :: (b ++ ' ' :: o2 :: o2 :: ' ' :: c),
         a.length + 4 + b.length + 4 + c.length, none⟩)) :=
    patternTailF_step (a.length + b.length + c.length + 5 + 1)
      ⟨a ++ ' ' :: o1 :: o1 :: ' ' :: (b ++ ' ' :: o2 :: o2 :: ' ' :: c),
       a.length, some 0⟩ o1 t1 q1 b (' ' :: o2 :: o2 :: ' ' :: c)
      (some (q2 (.Exact ⟨c⟩) none))
      ⟨a ++ ' ' :: o1 :: o1 :: ' ' :: (b ++ ' ' :: o2 :: o2 :: ' ' :: c),
       a.length + 4 + b.length + 4 + c.length, none⟩
      (ho1.imp (fun h => ⟨h.1, h.2.1, h.2.2.1⟩)
        (fun h => ⟨h.1, h.2.1, h.2.2.1⟩))
      hb hbal hdrop1
      (Or.inr ⟨' ', o2 :: o2 :: ' ' :: c, rfl, by decide⟩)
      hstep2
  have h0 : patternF (a.length + b.length + c.length + 5 + 1 + 1 + 1 + 1)
      ⟨a ++ ' ' :: o1 :: o1 :: ' ' :: (b ++ ' ' :: o2 :: o2 :: ' ' :: c),
       0, none⟩ =
      some (.ok (m2 (m1 (.Exact ⟨a⟩) (.Exact ⟨b⟩)) (.Exact ⟨c⟩),
        ⟨a ++ ' ' :: o1 :: o1 :: ' ' :: (b ++ ' ' :: o2 :: o2 :: ' ' :: c),
         a.length + 4 + b.length + 4 + c.length, none⟩)) := by
    unfold patternF
    rw [hfa]
    simp only []
    rw [hstep1]
    simp only []
    rw [apply_two q1 q2 m1 m2
      (ho1.imp (fun h => ⟨h.2.2.1, h.2.2.2⟩) (fun h => ⟨h.2.2.1, h.2.2.2⟩))
      (ho2.imp (fun h => ⟨h.2.2.1, h.2.2.2⟩) (fun h => ⟨h.2.2.1, h.2.2.2⟩))]
  unfold parsePatternL
  rw [hlen, h0]

/-- **C1.** For all alphanumeric keywords `a`, `b`, `c`: parsing
`a && b || c` yields `Or(And(a,b),c)` and parsing `a || b && c` yields
`And(Or(a,b),c)` — the two binary operators have equal precedence and
associate strictly left to right. -/
theorem C1_equal_precedence_left_to_right (a b c : String)
    (ha : a.data ≠ [] ∧ ∀ ch ∈ a.data, ch.isAlphanum = true)
    (hb : b.data ≠ [] ∧ ∀ ch ∈ b.data, ch.isAlphanum = true)
    (hc : c.data ≠ [] ∧ ∀ ch ∈ c.data, ch.isAlphanum = true) :
    parse_pattern (a ++ " && " ++ b ++ " || " ++ c) =
      some (.ok (.Or (.And (.Exact a) (.Exact b)) (.Exact c))) ∧
    parse_pattern (a ++ " || " ++ b ++ " && " ++ c) =
      some (.ok (.And (.Or (.Exact a) (.Exact b)) (.Exact c))) := by
  constructor
  · have h := parse_triple a.data b.data c.data '&' '|' .OpAnd .OpOr
      .And .Or .And .Or
      (Or.inl ⟨rfl, rfl, rfl, rfl⟩) (Or.inr ⟨rfl, rfl, rfl, rfl⟩)
      ha.1 ha.2 hb.1 hb.2 hc.1 hc.2
    have hdata : (a ++ " && " ++ b ++ " || " ++ c).data =
        a.data ++ ' ' :: '&' :: '&' :: ' ' ::
          (b.data ++ ' ' :: '|' :: '|' :: ' ' :: c.data) := by
      show (((a.data ++ " && ".data) ++ b.data) ++ " || ".data) ++ c.data = _
      simp [List.append_assoc,
        show " && ".data = [' ', '&', '&', ' '] from rfl,
        show " || ".data = [' ', '|', '|', ' '] from rfl]
    unfold parse_pattern
    rw [hdata]
    exact h
  · have h := parse_triple a.data b.data c.data '|' '&' .OpOr .OpAnd
      .Or .And .Or .And
      (Or.inr ⟨rfl, rfl, rfl, rfl⟩) (Or.inl ⟨rfl, rfl, rfl, rfl⟩)
      ha.1 ha.2 hb.1 hb.2 hc.1 hc.2
    have hdata : (a ++ " || " ++ b ++ " && " ++ c).data =
        a.data ++ ' ' :: '|' :: '|' :: ' ' ::
          (b.data ++ ' ' :: '&' :: '&' :: ' ' :: c.data) := by
      show (((a.data ++ " || ".data) ++ b.data) ++ " && ".data) ++ c.data = _
      simp [List.append_assoc,
        show " && ".data = [' ', '&', '&', ' '] from rfl,
        show " || ".data = [' ', '|', '|', ' '] from rfl]
    unfold parse_pattern
    rw [hdata]
    exact h

/-- Witness for C1 at concrete keywords. -/
theorem C1_equal_precedence_witness :
    parse_pattern ("gpu" ++ " && " ++ "rtx" ++ " || " ++ "amd") =
      some (.ok (.Or (.And (.Exact "gpu") (.Exact "rtx")) (.Exact "amd"))) ∧
    parse_pattern ("gpu" ++ " || " ++ "rtx" ++ " && " ++ "amd") =
      some (.ok (.And (.Or (.Exact "gpu") (.Exact "rtx")) (.Exact "amd"))) :=
  C1_equal_precedence_left_to_right "gpu" "rtx" "amd"
    ⟨by decide, by decide⟩ ⟨by decide, by decide⟩ ⟨by decide, by decide⟩

/-- Whatever `keywordLoop` appends to its accumulator is alphanumeric. -/
lemma keywordLoop_ok_suffix :
    ∀ (m : Nat) (s : ScanState), s.source.length - s.cursor ≤ m →
    ∀ (kwd res : List Char) (s' : ScanState),
    keywordLoop kwd s = .ok (res, s') →
    ∃ suf, res = kwd ++ suf ∧ ∀ ch ∈ suf, ch.isAlphanum = true := by
  intro m
  induction m with
  | zero =>
    intro s hm kwd res s' h
    have hpeek : s.peek = none := by
      rw [peek_drop, List.drop_eq_nil_of_le (by omega)]
      rfl
    rw [keywordLoop_none kwd s hpeek] at h
    simp only [Except.ok.injEq, Prod.mk.injEq] at h
    exact ⟨[], by rw [← h.1]; simp, by simp⟩
  | succ m ih =>
    intro s hm kwd res s' h
    cases hpeek : s.peek with
    | none =>
      rw [keywordLoop_none kwd s hpeek] at h
      simp only [Except.ok.injEq, Prod.mk.injEq] at h
      exact ⟨[], by rw [← h.1]; simp, by simp⟩
    | some ch =>
      by_cases hterm : isTermChar ch = true
      · rw [keywordLoop_term kwd s ch hpeek hterm] at h
        simp only [Except.ok.injEq, Prod.mk.injEq] at h
        exact ⟨[], by rw [← h.1]; simp, by simp⟩
      · have hterm' : isTermChar ch = false := by
          simpa using hterm
        by_cases hal : ch.isAlphanum = true
        · rw [keywordLoop_step kwd s ch hpeek hterm' hal] at h
          have hlt : s.cursor < s.source.length := by
            by_contra hge
            push_neg at hge
            rw [peek_drop, List.drop_eq_nil_of_le hge] at hpeek
            exact absurd hpeek (by simp)
          obtain ⟨suf, h1, h2⟩ := ih { s with cursor := s.cursor + 1 }
            (by simp only []; omega) (kwd ++ [ch]) res s' h
          refine ⟨ch :: suf, by rw [h1]; simp, ?_⟩
          intro x hx
          rcases List.mem_cons.mp hx with rfl | hx2
          · exact hal
          · exact h2 x hx2
        · have hal' : ch.isAlphanum = false := by
            simpa using hal
          rw [keywordLoop_bad kwd s ch hpeek hterm' hal'] at h
          exact absurd h (by simp)

/-- A successful unquoted `Scanner::keyword` run is a non-empty string
whose characters past the first are all alphanumeric. -/
lemma keyword_ok_chars (s : ScanState) (res : List Char) (s' : ScanState)
    (h : keyword s = .ok (res, s')) (hq : s.peek ≠ some '"') :
    res ≠ [] ∧ ∀ ch ∈ res.drop 1, ch.isAlphanum = true := by
  have htake : s.take '"' = (false, s) := by
    unfold ScanState.take
    cases hpk : s.peek with
    | none => rfl
    | some c =>
      have hc : c ≠ '"' := fun he => hq (by rw [hpk, he])
      simp [hc]
  unfold keyword at h
  rw [htake] at h
  by_cases hdone : s.isDone = true
  · simp [hdone] at h
  · simp only [Bool.not_eq_true] at hdone
    simp only [hdone, Bool.false_eq_true, if_false] at h
    cases hpk : s.peek with
    | none =>
      rw [show s.pop = (none, { s with cursor := s.cursor + 1 }) from by
        unfold ScanState.pop
        rw [show s.source.get? s.cursor = none from hpk]] at h
      simp at h
    | some ch =>
      rw [show s.pop = (some ch, { s with cursor := s.cursor + 1 }) from by
        unfold ScanState.pop
        rw [show s.source.get? s.cursor = some ch from hpk]] at h
      by_cases hws : ch.isWhitespace = true
      · simp [hws] at h
      · simp only [Bool.not_eq_true] at hws
        simp only [hws, Bool.false_eq_true, if_false] at h
        obtain ⟨suf, h1, h2⟩ := keywordLoop_ok_suffix
          (s.source.length - (s.cursor + 1)) { s with cursor := s.cursor + 1 }
          (by simp only []; omega) [ch] res s' h
        constructor
        · rw [h1]
          simp
        · intro x hx
          rw [h1] at hx
          simp only [List.cons_append, List.nil_append, List.drop_succ_cons,
            List.drop_zero] at hx
          exact h2 x hx

/-- `Scanner::next_token` on a keyword whose (unchecked) first char is any
non-special, non-whitespace character followed by an alphanumeric run. -/
lemma nextToken_any_first (c0 : Char) (tail rest : List Char) (s : ScanState)
    (hdrop : s.source.drop s.cursor = c0 :: (tail ++ rest))
    (hws : c0.isWhitespace = false) (hq : c0 ≠ '"')
    (hp1 : c0 ≠ '(') (hp2 : c0 ≠ ')') (hp3 : c0 ≠ '!')
    (hp4 : c0 ≠ '|') (hp5 : c0 ≠ '&')
    (htail : ∀ ch ∈ tail, ch.isAlphanum = true)
    (hrest : rest = [] ∨ ∃ ch r, rest = ch :: r ∧ isTermChar ch = true) :
    nextToken s = .ok (some (.Keyword ⟨c0 :: tail⟩),
      { s with cursor := s.cursor + 1 + tail.length, last_token := some s.cursor }) := by
  have hskip : skipWs s = s :=
    skipWs_some_nws s c0 (by rw [peek_drop, hdrop]; rfl) hws
  have hkw : keyword ({ s with last_token := some s.cursor } : ScanState) =
      .ok (c0 :: tail,
        { s with cursor := s.cursor + 1 + tail.length, last_token := some s.cursor }) := by
    rw [keyword_unquoted _ c0 (tail ++ rest)
      (by simp only []; rw [hdrop]) hq hws]
    have hrun := keywordLoop_run tail
      { s with cursor := s.cursor + 1, last_token := some s.cursor } [c0] rest
      htail
      (by
        show s.source.drop (s.cursor + 1) = tail ++ rest
        rw [drop_add_char s.source s.cursor 1, hdrop]
        simp)
      hrest
    rw [hrun]
    rfl
  unfold nextToken
  simp only [hskip]
  rw [show ({ s with last_token := some s.cursor } : ScanState).peek =
    some c0 from by rw [peek_drop]; simp only []; rw [hdrop]; rfl]
  simp only [hp1, hp2, hp3, hp4, hp5, if_false, ite_false, if_neg]
  rw [hkw]

/-- A full parse of a single keyword token: the pattern is `Exact` of the
scanned keyword — including the case of a non-alphanumeric first char. -/
lemma parse_single_keyword (c0 : Char) (tail : List Char)
    (hws : c0.isWhitespace = false) (hq : c0 ≠ '"')
    (hp1 : c0 ≠ '(') (hp2 : c0 ≠ ')') (hp3 : c0 ≠ '!')
    (hp4 : c0 ≠ '|') (hp5 : c0 ≠ '&')
    (htail : ∀ ch ∈ tail, ch.isAlphanum = true) :
    parsePatternL (c0 :: tail) = some (.ok (.Exact ⟨c0 :: tail⟩)) := by
  have hnt := nextToken_any_first c0 tail [] ⟨c0 :: tail, 0, none⟩
    (by simp) hws hq hp1 hp2 hp3 hp4 hp5 htail (Or.inl rfl)
  have hfa : factorF (tail.length + 1) ⟨c0 :: tail, 0, none⟩ =
      some (.ok (.Exact ⟨c0 :: tail⟩,
        ⟨c0 :: tail, 0 + 1 + tail.length, some 0⟩)) := by
    unfold factorF
    rw [hnt]
  have hend : patternTailF (tail.length + 1)
      ⟨c0 :: tail, 0 + 1 + tail.length, some 0⟩ =
      some (.ok (none, ⟨c0 :: tail, 0 + 1 + tail.length, none⟩)) :=
    patternTailF_end tail.length _
      (List.drop_eq_nil_of_le (by simp; omega))
  have h0 : patternF (tail.length + 1 + 1) ⟨c0 :: tail, 0, none⟩ =
      some (.ok (.Exact ⟨c0 :: tail⟩, ⟨c0 :: tail, 0 + 1 + tail.length, none⟩)) := by
    unfold patternF
    rw [hfa]
    simp only []
    rw [hend]
  unfold parsePatternL
  rw [show (c0 :: tail).length + 1 = tail.length + 1 + 1 from by simp, h0]

/-- Counterexample to C5 as stated: the input `#ab` tokenizes and parses
successfully even though the unquoted keyword contains (indeed starts
with) `#`, a character that is neither alphanumeric nor a terminator —
`Scanner::keyword` never class-checks the first character it pops. -/
theorem C5_counterexample_first_char_unchecked :
    parse_pattern "#ab" = some (.ok (.Exact "#ab")) ∧
    ('#'.isAlphanum = false) ∧ (isTermChar '#' = false) :=
  ⟨parse_single_keyword '#' ['a', 'b'] (by decide) (by decide) (by decide)
     (by decide) (by decide) (by decide) (by decide) (by decide),
   by decide, by decide⟩

/-- **C5 (amended).** Every successfully scanned unquoted keyword consists
of a first character that is only required to be non-whitespace (the
tokenizer dispatches quotes, parens and operator chars before calling the
keyword scanner) followed exclusively by alphanumeric characters; a
non-alphanumeric, non-terminator character at any later position within
the keyword fails with an `InvalidKeywordChar` syntax error naming its
column. -/
theorem C5_amended_keyword_chars :
    (∀ (s : ScanState) (res : List Char) (s' : ScanState),
      keyword s = .ok (res, s') → s.peek ≠ some '"' →
      res ≠ [] ∧ ∀ ch ∈ res.drop 1, ch.isAlphanum = true) ∧
    (∀ (s : ScanState) (c0 : Char) (good : List Char) (bad : Char)
       (r : List Char),
      s.source.drop s.cursor = c0 :: (good ++ bad :: r) →
      c0 ≠ '"' → c0.isWhitespace = false →
      (∀ ch ∈ good, ch.isAlphanum = true) →
      isTermChar bad = false → bad.isAlphanum = false →
      keyword s =
        .error (.InvalidKeywordChar (s.cursor + 1 + good.length) bad)) :=
  ⟨keyword_ok_chars,
   fun s c0 good bad r hd hq hws hg ht hn =>
     keyword_invalid s c0 good bad r hd hq hws hg ht hn⟩

/-- Witness for the amended C5: a successful scan of `nv` and the syntax
error on `a#b`. -/
theorem C5_amended_keyword_chars_witness :
    ((['n', 'v'] : List Char) ≠ [] ∧
      ∀ ch ∈ (['n', 'v'] : List Char).drop 1, ch.isAlphanum = true) ∧
    keyword ⟨"a#b".data, 0, none⟩ =
      .error (.InvalidKeywordChar 1 '#') :=
  ⟨C5_amended_keyword_chars.1 ⟨"nv ".data, 0, none⟩ ['n', 'v']
     ⟨"nv ".data, 2, none⟩
     (keyword_run ['n', 'v'] [' '] ⟨"nv ".data, 0, none⟩ (by decide)
       (by decide) (by decide) (Or.inr ⟨' ', [], by decide, by decide⟩))
     (by decide),
   C5_amended_keyword_chars.2 ⟨"a#b".data, 0, none⟩ 'a' [] '#' ['b']
     (by decide) (by decide) (by decide) (by simp) (by decide) (by decide)⟩
